import Mathlib

/-!
Verification model of the c4ai-scrpr crawling pipeline.

Shallow embedding conventions used throughout this file:

* Python strings that hold ISO-8601 datetimes are modelled by their parsed
  information content: a pair of the naive local timestamp (minutes on an
  abstract linear time axis) and an optional UTC offset in minutes.  Strings
  that dateutil.isoparse would reject are the constructor DStr.malformed
  (isoparse raising ValueError is modelled as Except.error).  Absent or empty
  (falsy) date strings are modelled as Option.none at the field level.
* IANA timezone objects (zoneinfo.ZoneInfo) are modelled by a key plus the two
  conversion functions the code actually calls: fromutc (instant to local wall
  clock) and the utcoffset of a local wall-clock time.  The zone database is a
  parameter of type Zdb.
* Python exceptions propagating out of a function are modelled by Except Unit.
* SHA hashes (sha1 dedup keys, sha256 url directories) are modelled
  injectively: the key is the hashed payload itself.
-/

/-- Lowercase a string character by character, mirroring str.lower on the
ASCII range used by the pipeline's fixed vocabulary comparisons. -/
def lowerStr (s : String) : String := ⟨s.data.map Char.toLower⟩

/-- Boolean substring test on character lists (models Python's `in` on str). -/
def containsSub (needle hay : List Char) : Bool :=
  match hay with
  | [] => needle.isEmpty
  | _ :: t => (needle.isPrefixOf hay) || containsSub needle t

/-- Drop trailing characters satisfying p (helper for str.strip). -/
def dropTrail (p : Char → Bool) : List Char → List Char
  | [] => []
  | c :: cs =>
      let r := dropTrail p cs
      if r.isEmpty && p c then [] else c :: r

/-- Model of Python str.strip(): remove leading and trailing whitespace. -/
def pyStrip (s : String) : String :=
  ⟨dropTrail Char.isWhitespace (s.data.dropWhile Char.isWhitespace)⟩

/-- Split a character list into maximal non-whitespace words (str.split()). -/
def pyWords (l : List Char) : List (List Char) :=
  (l.splitOnP Char.isWhitespace).filter (fun w => !w.isEmpty)

/-- Model of the whitespace normalisation in app.quality.keys, which is
the join of str.split() with single spaces after lowercasing. -/
def normWs (s : String) : String :=
  ⟨List.intercalate [' '] (pyWords (lowerStr s).data)⟩

/-- Two-character zero-padded decimal rendering of n < 100 (f-string 02d). -/
def twoDigits (n : Nat) : List Char := [Nat.digitChar (n / 10), Nat.digitChar (n % 10)]

/-- Numeric value of a decimal digit character, when it is one. -/
def charDigit (c : Char) : Option Nat :=
  if c.isDigit then some (c.toNat - 48) else none

/-! ## Datetime model -/

/-- Parsed information content of an ISO-8601 datetime string: naive local
timestamp in minutes and optional UTC offset in minutes. -/
structure IsoDT where
  naive : Int
  tzo : Option Int
  deriving DecidableEq, Repr

/-- A Python string sitting in a datetime position: either an ISO-8601
string (by its parsed content) or a string isoparse would reject. -/
inductive DStr where
  | iso (d : IsoDT)
  | malformed (tag : String)
  deriving DecidableEq, Repr

/-- Model of a zoneinfo.ZoneInfo object: its IANA key plus the conversions
the code invokes (fromutc for astimezone, utcoffset of a wall-clock time). -/
structure Zone where
  key : String
  fromutc : Int → Int
  utcoffAtLocal : Int → Int

/-- The timezone database: what ZoneInfo(name) resolves to, none when the
constructor raises ZoneInfoNotFoundError. -/
def Zdb : Type := String → Option Zone

/-- A tzinfo value attached to a datetime: dateutil's tz.UTC, a fixed offset
(dateutil tzoffset or datetime.timezone), or a ZoneInfo. -/
inductive TzInfo where
  | utc
  | fixed (minutes : Int)
  | zone (z : Zone)

/-- An aware datetime in flight inside the normaliser: naive local wall-clock
minutes plus its tzinfo. -/
structure ADT where
  wall : Int
  tz : TzInfo

/-- utcoffset() of a datetime with the given tzinfo at the given local time. -/
def utcoff (t : TzInfo) (l : Int) : Int :=
  match t with
  | .utc => 0
  | .fixed m => m
  | .zone z => z.utcoffAtLocal l

/-- fromutc of a tzinfo applied to an instant (naive UTC minutes). -/
def fromutcAt (t : TzInfo) (u : Int) : Int :=
  match t with
  | .utc => u
  | .fixed m => u + m
  | .zone z => z.fromutc u

/-- CPython datetime.astimezone for a target tzinfo that is not the identical
object: convert to UTC using the current offset, then map through the target's
fromutc.  The identical-object short circuit arises only in the naive branch
of the conversion below and is applied there structurally. -/
def astimezone (d : ADT) (target : TzInfo) : ADT :=
  ⟨fromutcAt target (d.wall - utcoff d.tz d.wall), target⟩

/-- isoformat() of an aware datetime, as parsed content: the local wall time
with the current utcoffset rendered as the explicit offset. -/
def render (d : ADT) : IsoDT := ⟨d.wall, some (utcoff d.tz d.wall)⟩

/-- isoformat() seen as a datetime-position string. -/
def renderD (d : ADT) : DStr := .iso (render d)

/-- The synthesised fallback timezone name from app.normalize.fields
(f-string UTC{sign}{hours:02d}:{minutes:02d} over the offset minutes). -/
def synthName (m : Int) : String :=
  ⟨'U' :: 'T' :: 'C' :: (if 0 ≤ m then '+' else '-') ::
    (twoDigits (m.natAbs / 60) ++ ':' :: twoDigits (m.natAbs % 60))⟩

/-- The backfilled timezone label of app.normalize.fields.normalize_datetimes:
the ZoneInfo key when present, else tzname() (UTC for tz.UTC, None for a
dateutil fixed offset), else the synthesised UTC±HH:MM string. -/
def tznameOf (d : ADT) : String :=
  match d.tz with
  | .zone z => z.key
  | .utc => "UTC"
  | .fixed m => synthName m

/-- Model of _resolve_timezone.  The UTC±HH:MM fallback parse reads name[3]
as the sign, int(name[4:6]) as hours and, when len(name) >= 9, int(name[7:9])
as minutes; a non-numeric slice or an offset of 24 hours or more raises
(modelled as Except.error), otherwise datetime.timezone(...) is a fixed
offset.  int() on a two-character slice is modelled as requiring two digits. -/
def resolveName (zdb : Zdb) (name : String) : Except Unit (Option TzInfo) :=
  if name = "" then .ok none
  else
    match zdb name with
    | some z => .ok (some (.zone z))
    | none =>
        match name.data with
        | 'U' :: 'T' :: 'C' :: c3 :: c4 :: c5 :: rest =>
            let sign : Int := if c3 = '+' then 1 else -1
            match charDigit c4, charDigit c5 with
            | some h1, some h2 =>
                let hours := h1 * 10 + h2
                match rest with
                | _ :: m1 :: m2 :: _ =>
                    match charDigit m1, charDigit m2 with
                    | some n1, some n2 =>
                        let minutes := n1 * 10 + n2
                        if hours * 60 + minutes < 1440 then
                          .ok (some (.fixed (sign * (hours * 60 + minutes))))
                        else .error ()
                    | _, _ => .error ()
                | _ =>
                    if hours * 60 < 1440 then .ok (some (.fixed (sign * (hours * 60))))
                    else .error ()
            | _, _ => .error ()
        | _ => .ok none

/-- Lift of _resolve_timezone to the Optional[str] hints it receives. -/
def resolveTz (zdb : Zdb) (hint : Option String) : Except Unit (Option TzInfo) :=
  match hint with
  | none => .ok none
  | some n => resolveName zdb n

/-- Truthiness of an optional string hint (Python `if timezone_hint:`). -/
def hintTruthy (h : Option String) : Bool :=
  match h with
  | some s => s ≠ ""
  | none => false

/-- Model of _convert_datetime from app.normalize.fields: parse, attach the
resolved hint (else UTC) when naive, then express in the resolved hint zone.
In the naive branch the subsequent astimezone call targets the very tzinfo
just attached (ZoneInfo instances are cached, fixed-offset conversion is the
identity), so it leaves the wall time unchanged. -/
def convertDT (zdb : Zdb) (hint : Option String) (v : DStr) : Except Unit ADT :=
  match v with
  | .malformed _ => .error ()
  | .iso d =>
      match d.tzo with
      | none => do
          let r0 ← resolveTz zdb hint
          match r0 with
          | some r => .ok ⟨d.naive, r⟩
          | none => .ok ⟨d.naive, .utc⟩
      | some o =>
          let dt : ADT := ⟨d.naive, if o = 0 then .utc else .fixed o⟩
          if hintTruthy hint then do
            let r0 ← resolveTz zdb hint
            match r0 with
            | some r => .ok (astimezone dt r)
            | none => .ok dt
          else .ok dt

/-! ## Entity model and the normalisation passes -/

/-- One element of an entity's time_slots list (a dict with optional start
and end values; absent or falsy values are none). -/
structure TimeSlot where
  start : Option DStr
  «end» : Option DStr
  deriving DecidableEq, Repr

/-- Typed model of a candidate entity dict.  Optional fields model absent
keys or None values as none.  Datetime-position strings are DStr (see the
header comment); price_value is the float the code derives, modelled as an
exact rational. -/
structure Entity where
  type : String
  source_id : Option String
  title : Option String
  venue_name : Option String
  address : Option String
  city : Option String
  country : Option String
  timezone : Option String
  start : Option DStr
  «end» : Option DStr
  time_slots : Option (List TimeSlot)
  price_text : Option String
  price_value : Option Rat
  organizer : Option String
  url : Option String
  emails : Option (List String)
  phones : Option (List String)
  images : Option (List String)
  taxonomy : Option (List String)
  sport_type : Option String
  deriving DecidableEq, Repr

/-- Normalise the slots list as in normalize_datetimes: a slot is kept only
when both start and end are truthy, and both are converted with the current
timezone hint. -/
def normSlots (zdb : Zdb) (hint : Option String) :
    List TimeSlot → Except Unit (List TimeSlot)
  | [] => .ok []
  | s :: rest =>
      match s.start, s.«end» with
      | some sv, some ev => do
          let sd ← convertDT zdb hint sv
          let ed ← convertDT zdb hint ev
          let tail ← normSlots zdb hint rest
          .ok (⟨some (renderD sd), some (renderD ed)⟩ :: tail)
      | _, _ => normSlots zdb hint rest

/-- The start-and-backfill stage of normalize_datetimes: convert a truthy
start with the entity's hint and, when the entity had no timezone, backfill
it from the converted value's zone. -/
def dtStart (zdb : Zdb) (tz0 : Option String) (st : Option DStr) :
    Except Unit (Option DStr × Option String) :=
  match st with
  | none => .ok (st, tz0)
  | some v => do
      let d ← convertDT zdb tz0 v
      if tz0 = none then .ok (some (renderD d), some (tznameOf d))
      else .ok (some (renderD d), tz0)

/-- The end stage of normalize_datetimes: convert a truthy end with the
current (possibly backfilled) hint. -/
def dtEnd (zdb : Zdb) (tz1 : Option String) (en : Option DStr) :
    Except Unit (Option DStr) :=
  match en with
  | none => .ok en
  | some v => do
      let d ← convertDT zdb tz1 v
      .ok (some (renderD d))

/-- The time_slots stage of normalize_datetimes. -/
def dtSlots (zdb : Zdb) (tz1 : Option String) (sl : Option (List TimeSlot)) :
    Except Unit (Option (List TimeSlot)) :=
  match sl with
  | none => .ok sl
  | some slots => do
      let ns ← normSlots zdb tz1 slots
      .ok (some ns)

/-- Core of normalize_datetimes on the four fields it reads and writes:
start, the timezone hint (backfilled from start's zone when the entity
lacked one), end, and time_slots, in source order. -/
def dtCore (zdb : Zdb) (tz0 : Option String) (st en : Option DStr)
    (sl : Option (List TimeSlot)) :
    Except Unit (Option DStr × Option String × Option DStr × Option (List TimeSlot)) := do
  let p1 ← dtStart zdb tz0 st
  let en1 ← dtEnd zdb p1.2 en
  let sl1 ← dtSlots zdb p1.2 sl
  .ok (p1.1, p1.2, en1, sl1)

/-- Model of app.normalize.fields.normalize_datetimes.  The in-place dict
mutation is modelled by returning the updated entity; a ValueError from
dateutil.isoparse (or the int() calls of _resolve_timezone) is Except.error. -/
def normalize_datetimes (zdb : Zdb) (e : Entity) : Except Unit Entity := do
  let r ← dtCore zdb e.timezone e.start e.«end» e.time_slots
  .ok { e with start := r.1, timezone := r.2.1, «end» := r.2.2.1, time_slots := r.2.2.2 }

/-- The text pool normalise_contacts scans: the space-join of the truthy
values among price_text, organizer, address, title. -/
def contactPool (e : Entity) : String :=
  ⟨List.intercalate [' ']
    (([e.price_text, e.organizer, e.address, e.title].filterMap id).filterMap
      (fun s => if s = "" then none else some s.data))⟩

/-- Model of normalise_contacts.  The two regex extractions (sorted
deduplicated lowercase emails, sorted deduplicated +digit phones) are
parameters ee and pe: every claim about this pass depends only on their
being pure functions of the pool, not on the regexes themselves. -/
def normalise_contacts (ee pe : String → List String) (e : Entity) : Entity :=
  let pool := contactPool e
  { e with emails := some (ee pool), phones := some (pe pool) }

/-- Maximal leading digit run of a character list and the remainder. -/
def digitRun : List Char → List Char × List Char
  | [] => ([], [])
  | c :: cs =>
      if c.isDigit then
        let r := digitRun cs
        (c :: r.1, r.2)
      else ([], c :: cs)

/-- Decimal value of a digit run. -/
def digitsVal (l : List Char) : Nat := l.foldl (fun a c => a * 10 + (c.toNat - 48)) 0

/-- Leftmost match of the price regex (\d+)([.,]\d{2})? as the derived
major.minor value. -/
def priceSearch : List Char → Option Rat
  | [] => none
  | c :: cs =>
      if c.isDigit then
        let r := digitRun (c :: cs)
        let major : Rat := (digitsVal r.1 : Nat)
        match r.2 with
        | sep :: d1 :: d2 :: _ =>
            if (sep = '.' || sep = ',') && d1.isDigit && d2.isDigit then
              some (major + ((d1.toNat - 48) * 10 + (d2.toNat - 48) : Nat) / 100)
            else some major
        | _ => some major
      else priceSearch cs

/-- The price_value field after price_to_number: the derived number on a
match, the previous value otherwise (leaving the dict untouched equals
rewriting the field with its own value). -/
def priceOf (e : Entity) : Option Rat :=
  match e.price_text with
  | none => e.price_value
  | some s =>
      match priceSearch s.data with
      | none => e.price_value
      | some q => some q

/-- Model of price_to_number: when price_text is a string with a regex
match, set price_value to major + minor/100; otherwise leave the entity
untouched. -/
def price_to_number (e : Entity) : Entity :=
  { e with price_value := priceOf e }

/-- The seen-accumulating image cleanup loop of normalise_urls. -/
def imageLoop (seen : List String) : List String → List String
  | [] => seen
  | i :: rest =>
      let cleaned := pyStrip i
      if cleaned ≠ "" && !(seen.contains cleaned) then imageLoop (seen ++ [cleaned]) rest
      else imageLoop seen rest

/-- The url field after normalise_urls: stripped when present. -/
def urlOfN (e : Entity) : Option String :=
  match e.url with
  | some u => some (pyStrip u)
  | none => none

/-- The images field after normalise_urls: cleaned and deduplicated when the
value is a list. -/
def imagesOfN (e : Entity) : Option (List String) :=
  match e.images with
  | some imgs => some (imageLoop [] imgs)
  | none => none

/-- Model of normalise_urls: strip the url and deduplicate stripped images
preserving first-seen order. -/
def normalise_urls (e : Entity) : Entity :=
  { e with url := urlOfN e, images := imagesOfN e }

/-- The fixed CATEGORY_MAP of app.normalize.taxonomy in insertion order. -/
def CATEGORY_MAP : List (String × String) :=
  [("jazz", "music"), ("art", "art"), ("football", "football"), ("running", "running")]

/-- Append a label unless already present (the membership-guarded append of
map_taxonomy). -/
def addIfAbsent (l : List String) (v : String) : List String :=
  if l.contains v then l else l ++ [v]

/-- One CATEGORY_MAP entry of map_taxonomy: append the mapped label when the
guard (a title-substring test) fires. -/
def guardedAdd (g : String × String → Bool) (acc : List String)
    (kv : String × String) : List String :=
  if g kv then addIfAbsent acc kv.2 else acc

/-- The taxonomy list computed by map_taxonomy: coerce to a list, add
mapped categories for case-insensitive title substrings, and for sports
entities append the lowercased sport_type. -/
def taxOf (e : Entity) : List String :=
  let tax0 := match e.taxonomy with | some l => l | none => []
  let title := lowerStr (match e.title with | some t => t | none => "")
  let tax1 := CATEGORY_MAP.foldl
    (guardedAdd (fun kv => containsSub kv.1.data title.data)) tax0
  if e.type = "sports" then
    match e.sport_type with
    | some st => if st ≠ "" then addIfAbsent tax1 (lowerStr st) else tax1
    | none => tax1
  else tax1

/-- Model of map_taxonomy: attach the computed taxonomy list. -/
def map_taxonomy (e : Entity) : Entity := { e with taxonomy := some (taxOf e) }

/-- The per-entity normalisation pass of the orchestrator: the five calls of
app.main._process_job in order.  Only the first can raise. -/
def normalisePass (zdb : Zdb) (ee pe : String → List String) (e : Entity) :
    Except Unit Entity := do
  let e1 ← normalize_datetimes zdb e
  .ok (map_taxonomy (normalise_urls (price_to_number (normalise_contacts ee pe e1))))

/-! ## Dedup keys (app.quality.keys) and the Deduplicator -/

/-- Python `x or y` over optional strings: the value when truthy. -/
def truthyStr (o : Option String) : Option String :=
  match o with
  | some s => if s = "" then none else some s
  | none => none

/-- The sha1 dedup-key payload of app.quality.keys.entity_key, modelled
injectively by its components: normalised title, the day bucket of
start-or-end-or-epoch, normalised venue-or-address, normalised city, and
the raw source_id. -/
structure Key where
  title : String
  bucket : IsoDT
  venue : String
  city : String
  source_id : String
  deriving DecidableEq, Repr

/-- Model of _bucket: isoparse (raising on a malformed string) then truncate
the local wall time to its day (midnights are the multiples of 1440 on the
minute axis), keeping the offset. -/
def bucketOf : DStr → Except Unit IsoDT
  | .malformed _ => .error ()
  | .iso d => .ok ⟨d.naive - d.naive % 1440, d.tzo⟩

/-- The epoch default "1970-01-01T00:00:00Z" used when both start and end
are falsy: origin of the minute axis, explicit zero offset. -/
def epochDStr : DStr := .iso ⟨0, some 0⟩

/-- Model of app.quality.keys.entity_key. -/
def entity_key (e : Entity) : Except Unit Key := do
  let b ← bucketOf (((e.start).or e.«end»).getD epochDStr)
  .ok ⟨normWs ((truthyStr e.title).getD ""), b,
       normWs (((truthyStr e.venue_name).or (truthyStr e.address)).getD ""),
       normWs ((truthyStr e.city).getD ""),
       (truthyStr e.source_id).getD ""⟩

/-- Model of app.quality.keys.nearby_keys: the entity's own start (or end)
shifted by -1 and +1 days with the offset kept, keyed with all other fields
unchanged.  An unparseable start raises at first iteration. -/
def nearby_keys (e : Entity) : Except Unit (List Key) :=
  match (e.start).or e.«end» with
  | none => .ok []
  | some (.malformed _) => .error ()
  | some (.iso d) => do
      let k1 ← entity_key { e with start := some (.iso ⟨d.naive + (-1) * 1440, d.tzo⟩) }
      let k2 ← entity_key { e with start := some (.iso ⟨d.naive + 1 * 1440, d.tzo⟩) }
      .ok [k1, k2]

/-- Model of Deduplicator.is_duplicate over the set of remembered keys:
true when the canonical key or any near key is already known. -/
def is_duplicate (seen : List Key) (e : Entity) : Except Unit Bool := do
  let primary ← entity_key e
  if seen.contains primary then .ok true
  else do
    let alts ← nearby_keys e
    .ok (alts.any seen.contains)

/-- Model of Deduplicator.remember: record the canonical key only. -/
def rememberKey (seen : List Key) (e : Entity) : Except Unit (List Key) := do
  let k ← entity_key e
  .ok (k :: seen)

/-! ## EntityMerger (app.quality.merge) -/

/-- Merge one optional string field: overwrite only when the candidate value
is non-null, non-empty and differs; the Bool reports a change. -/
def mergeStr (ex cv : Option String) : Option String × Bool :=
  match cv with
  | none => (ex, false)
  | some v => if v = "" then (ex, false) else if ex = some v then (ex, false) else (some v, true)

/-- Merge one optional list-valued field ([] is falsy and skipped). -/
def mergeListF {α : Type} [DecidableEq α] (ex cv : Option (List α)) :
    Option (List α) × Bool :=
  match cv with
  | none => (ex, false)
  | some v => if v = [] then (ex, false) else if ex = some v then (ex, false) else (some v, true)

/-- Merge one optional field whose values are never falsy (numbers, parsed
datetime strings). -/
def mergeVal {α : Type} [DecidableEq α] (ex cv : Option α) : Option α × Bool :=
  match cv with
  | none => (ex, false)
  | some v => if ex = some v then (ex, false) else (some v, true)

/-- EntityMerger.merge on the typed entity record: candidate fields that are
non-null, non-empty and different overwrite the existing ones; the flag is
true iff any field changed.  (The dict-level model used by claim C10 is
mergeDict below; this record instance is what _process_job applies.) -/
def mergeE (ex cand : Entity) : Entity × Bool :=
  let ty := if cand.type = "" then (ex.type, false)
            else if ex.type = cand.type then (ex.type, false) else (cand.type, true)
  let f1 := mergeStr ex.source_id cand.source_id
  let f2 := mergeStr ex.title cand.title
  let f3 := mergeStr ex.venue_name cand.venue_name
  let f4 := mergeStr ex.address cand.address
  let f5 := mergeStr ex.city cand.city
  let f6 := mergeStr ex.country cand.country
  let f7 := mergeStr ex.timezone cand.timezone
  let f8 := mergeVal ex.start cand.start
  let f9 := mergeVal ex.«end» cand.«end»
  let f10 := mergeListF ex.time_slots cand.time_slots
  let f11 := mergeStr ex.price_text cand.price_text
  let f12 := mergeVal ex.price_value cand.price_value
  let f13 := mergeStr ex.organizer cand.organizer
  let f14 := mergeStr ex.url cand.url
  let f15 := mergeListF ex.emails cand.emails
  let f16 := mergeListF ex.phones cand.phones
  let f17 := mergeListF ex.images cand.images
  let f18 := mergeListF ex.taxonomy cand.taxonomy
  let f19 := mergeStr ex.sport_type cand.sport_type
  (⟨ty.1, f1.1, f2.1, f3.1, f4.1, f5.1, f6.1, f7.1, f8.1, f9.1, f10.1,
    f11.1, f12.1, f13.1, f14.1, f15.1, f16.1, f17.1, f18.1, f19.1⟩,
   ty.2 || f1.2 || f2.2 || f3.2 || f4.2 || f5.2 || f6.2 || f7.2 || f8.2 || f9.2 ||
   f10.2 || f11.2 || f12.2 || f13.2 || f14.2 || f15.2 || f16.2 || f17.2 || f18.2 || f19.2)

/-! ## Dict-level merge model for the generic EntityMerger contract -/

/-- Python values as they occur in entity dicts: None, strings, integers,
booleans, lists and dicts. -/
inductive PyVal where
  | null
  | str (s : String)
  | intg (n : Int)
  | boolean (b : Bool)
  | list (l : List PyVal)
  | dict (l : List (String × PyVal))

mutual

/-- Python == on dict values, structurally. -/
def pyEq : PyVal → PyVal → Bool
  | .null, .null => true
  | .str a, .str b => a = b
  | .intg a, .intg b => a = b
  | .boolean a, .boolean b => a = b
  | .list a, .list b => pyEqL a b
  | .dict a, .dict b => pyEqD a b
  | _, _ => false

/-- Python == on lists of dict values. -/
def pyEqL : List PyVal → List PyVal → Bool
  | [], [] => true
  | x :: xs, y :: ys => pyEq x y && pyEqL xs ys
  | _, _ => false

/-- Python == on dicts viewed as ordered association lists. -/
def pyEqD : List (String × PyVal) → List (String × PyVal) → Bool
  | [], [] => true
  | (k1, v1) :: xs, (k2, v2) :: ys => (k1 == k2) && pyEq v1 v2 && pyEqD xs ys
  | _, _ => false

end

/-- A Python dict as an ordered association list with distinct keys. -/
abbrev PyDict : Type := List (String × PyVal)

/-- Python dict.get(k): the stored value or None. -/
def pyGet (d : PyDict) (k : String) : PyVal :=
  match d.lookup k with
  | some v => v
  | none => .null

/-- Python membership of value in the falsy tuple None, empty string, empty
list, empty dict. -/
def isEmptyLike (v : PyVal) : Bool :=
  pyEq v PyVal.null || pyEq v (PyVal.str "") || pyEq v (PyVal.list []) || pyEq v (PyVal.dict [])

/-- Assignment existing[k] = v on a dict: replace in place or append. -/
def setKey : PyDict → String → PyVal → PyDict
  | [], k, v => [(k, v)]
  | (k', w) :: rest, k, v =>
      if k' = k then (k, v) :: rest else (k', w) :: setKey rest k v

/-- The item loop of EntityMerger.merge: skip falsy candidate values,
assign when the existing value differs, track mutation. -/
def mergeLoop : PyDict × Bool → List (String × PyVal) → PyDict × Bool
  | acc, [] => acc
  | acc, (k, v) :: rest =>
      if isEmptyLike v then mergeLoop acc rest
      else if pyEq (pyGet acc.1 k) v then mergeLoop acc rest
      else mergeLoop (setKey acc.1 k v, true) rest

/-- EntityMerger.merge on raw dicts: iterate the candidate's items over the
mutation-tracking loop.  The returned dict is the final state of the
existing dict (the source mutates and returns its first argument, and never
assigns into the candidate). -/
def mergeDict (existing cand : PyDict) : PyDict × Bool :=
  mergeLoop (existing, false) cand

/-! ## The per-candidate pipeline of app.main._process_job -/

/-- The dependencies _process_job receives for the per-entity stage: the
zone database and contact extractors behind the normalisation pass, and the
schema registry's prune and validate operations (arbitrary pure functions
of the entity type and payload). -/
structure StepParams where
  zdb : Zdb
  ee : String → List String
  pe : String → List String
  prune : String → Entity → Entity
  validate : String → Entity → Bool

/-- Run-owned mutable state touched by the per-entity loop: the metrics
counters (a total map, like the defaultdict registry), the dedup index keys,
the per-type results index and ordered results list, the quarantine, and the
per-source stats triple. -/
structure RunState where
  metrics : String → Int
  seen : List Key
  resultsIndex : String → List (Key × Entity)
  results : String → List Entity
  quarantined : List Entity
  statsNew : Int
  statsUpdated : Int
  statsRejects : Int

/-- MetricsRegistry.incr by one. -/
def bump (m : String → Int) (name : String) : String → Int :=
  fun n => if n = name then m n + 1 else m n

/-- Dict assignment on a key-to-entity association list. -/
def setAssoc : List (Key × Entity) → Key → Entity → List (Key × Entity)
  | [], k, v => [(k, v)]
  | (k', w) :: rest, k, v =>
      if k' = k then (k, v) :: rest else (k', w) :: setAssoc rest k v

/-- Update one type's slot of the results index. -/
def setIdxF (ri : String → List (Key × Entity)) (t : String) (k : Key) (e : Entity) :
    String → List (Key × Entity) :=
  fun t' => if t' = t then setAssoc (ri t) k e else ri t'

/-- Append an entity to one type's results list. -/
def appendRes (rs : String → List Entity) (t : String) (e : Entity) :
    String → List Entity :=
  fun t' => if t' = t then rs t ++ [e] else rs t'

/-- The prune-and-timezone-backfill step of _process_job: prune to the
schema's keys, then restore the entity's timezone when the pruned copy lacks
a truthy one.  (Dropping None-valued keys afterwards is the identity on the
typed record, where absent and None coincide.) -/
def cleanOf (p : StepParams) (e : Entity) : Entity :=
  let ce0 := p.prune e.type e
  if hintTruthy ce0.timezone then ce0 else { ce0 with timezone := e.timezone }

/-- The quarantine branch: record the rejected (pre-prune) entity, bump
validates_failed and quarantine_rows, count the source reject. -/
def quarantineReject (s : RunState) (e : Entity) : RunState :=
  { s with quarantined := s.quarantined ++ [e],
           metrics := bump (bump s.metrics "validates_failed") "quarantine_rows",
           statsRejects := s.statsRejects + 1 }

/-- The fresh-insert branch: remember the key, index and append the entity,
bump entities_new and the source's rows_new. -/
def insertNew (s : RunState) (t : String) (k : Key) (ce : Entity) : RunState :=
  { s with seen := k :: s.seen,
           resultsIndex := setIdxF s.resultsIndex t k ce,
           results := appendRes s.results t ce,
           metrics := bump s.metrics "entities_new",
           statsNew := s.statsNew + 1 }

/-- The merge branch: remember the key, merge into the indexed entity and,
when the merge mutated it, bump entities_updated and the source's
rows_updated. -/
def mergeExisting (s : RunState) (t : String) (k : Key) (existing ce : Entity) : RunState :=
  let mm := mergeE existing ce
  let s2 := { s with seen := k :: s.seen, resultsIndex := setIdxF s.resultsIndex t k mm.1 }
  if mm.2 then
    { s2 with metrics := bump s2.metrics "entities_updated",
              statsUpdated := s2.statsUpdated + 1 }
  else s2

/-- One candidate entity through normalise, prune, timezone backfill,
validate, dedup and insert-or-merge, exactly as in _process_job.  The Bool
is false when an exception propagates (aborting the job); every raise point
precedes any state mutation for that candidate, so the state is returned
unchanged in that case.  The per-entity checkpoint write touches only the
filesystem and is outside this state. -/
def stepEntity (p : StepParams) (s : RunState) (e0 : Entity) : RunState × Bool :=
  match normalisePass p.zdb p.ee p.pe e0 with
  | .error _ => (s, false)
  | .ok e =>
      let ce := cleanOf p e
      if p.validate e.type ce = false then (quarantineReject s e, true)
      else
        match is_duplicate s.seen ce with
        | .error _ => (s, false)
        | .ok true => ({ s with metrics := bump s.metrics "duplicates" }, true)
        | .ok false =>
            match entity_key ce with
            | .error _ => (s, false)
            | .ok k =>
                match (s.resultsIndex e.type).lookup k with
                | some existing => (mergeExisting s e.type k existing ce, true)
                | none => (insertNew s e.type k ce, true)

/-- The extracted-candidates loop of _process_job over one page: process in
order, stopping when a candidate raises (the exception aborts the job). -/
def processEntities (p : StepParams) (s : RunState) : List Entity → RunState × Bool
  | [] => (s, true)
  | e :: rest =>
      let r := stepEntity p s e
      if r.2 then processEntities p r.1 rest else (r.1, false)

/-- Sum of the four mutually-exclusive per-candidate outcome counters. -/
def outcomeSum (s : RunState) : Int :=
  s.metrics "entities_new" + s.metrics "entities_updated" +
    s.metrics "duplicates" + s.metrics "validates_failed"

/-- The run invariant relating the results index to the dedup index: every
key present in any type's results index has been remembered.  It holds for
the empty initial state and is preserved by the loop. -/
def IndexSubSeen (s : RunState) : Prop :=
  ∀ t k, ((s.resultsIndex t).lookup k).isSome → s.seen.contains k

/-! ## Conditional fetch cache (app.fetch.etag_cache) -/

/-- One persisted cache record: etag, last_modified and last_seen strings
(None inputs are stored as empty strings by update). -/
structure EtagEntry where
  etag : String
  last_modified : String
  last_seen : String
  deriving DecidableEq, Repr

/-- The in-memory index of the ETag cache, keyed by URL. -/
def EtagIndex : Type := String → Option EtagEntry

/-- The conditional header pair assembled by headers_for (each present only
when the stored value is truthy). -/
structure CondHeaders where
  ifNoneMatch : Option String
  ifModifiedSince : Option String
  deriving DecidableEq, Repr

/-- Model of ETagCache.headers_for. -/
def headers_for (idx : EtagIndex) (url : String) : CondHeaders :=
  let en := (idx url).getD ⟨"", "", ""⟩
  ⟨if en.etag ≠ "" then some en.etag else none,
   if en.last_modified ≠ "" then some en.last_modified else none⟩

/-- Model of ETagCache.update: replace the whole entry, coercing falsy etag
and last_modified to empty strings, stamping the current time. -/
def etag_update (idx : EtagIndex) (url : String) (etag lastMod : Option String)
    (now : Nat) : EtagIndex :=
  fun u => if u = url then some ⟨etag.getD "", lastMod.getD "", toString now⟩ else idx u

/-! ## Fetcher (app.fetch.fetcher.fetch_document) -/

/-- The response headers the fetcher reads, plus the full header map kept on
the snapshot (modelled by the same pair). -/
structure RespHeaders where
  etag : Option String
  last_modified : Option String
  deriving DecidableEq, Repr

/-- An httpx response as consumed by fetch_document. -/
structure Response where
  status : Nat
  headers : RespHeaders
  text : String
  deriving DecidableEq, Repr

/-- A persisted raw snapshot: url, html, headers and fetch time. -/
structure SnapshotM where
  url : String
  html : String
  headers : RespHeaders
  fetched_at : Int
  deriving DecidableEq, Repr

/-- The bronze tier as the list of snapshots saved, keyed by the url (the
sha256 directory name modelled injectively). -/
abbrev Bronze : Type := List (String × SnapshotM)

/-- Result of one fetch_document call: the updated metrics, cache and bronze
tier, and either the optional snapshot or a propagating exception. -/
structure FetchOut where
  metrics : String → Int
  cache : EtagIndex
  bronze : Bronze
  result : Except Unit (Option SnapshotM)

/-- Model of fetch_document.  robotsAllowed is the verdict of
robots.allowed(url); resp is the outcome of _do_fetch after its retry loop
(the retries counter bumped inside _do_fetch is not modelled).  Counter
bumps happen in source order: pages_fetched and the status-bucket counter
before any status dispatch; 304 bumps unchanged_skips, refreshes the cache
and returns None without saving; raise_for_status raises on any non-2xx,
keeping mutations made so far; 2xx saves a snapshot, refreshes the cache
and returns it. -/
def fetch_document (robotsAllowed : Bool) (resp : Except Unit Response)
    (url : String) (now : Int) (tnow : Nat)
    (m : String → Int) (cache : EtagIndex) (bronze : Bronze) : FetchOut :=
  if !robotsAllowed then ⟨bump m "robots_disallow", cache, bronze, .ok none⟩
  else
    match resp with
    | .error _ => ⟨m, cache, bronze, .error ()⟩
    | .ok r =>
        let m1 := bump (bump m "pages_fetched") ("http_" ++ toString (r.status / 100) ++ "xx")
        if r.status = 304 then
          ⟨bump m1 "unchanged_skips",
           etag_update cache url r.headers.etag r.headers.last_modified tnow,
           bronze, .ok none⟩
        else if 200 ≤ r.status && r.status ≤ 299 then
          let snap : SnapshotM := ⟨url, r.text, r.headers, now⟩
          ⟨m1, etag_update cache url r.headers.etag r.headers.last_modified tnow,
           bronze ++ [(url, snap)], .ok (some snap)⟩
        else ⟨m1, cache, bronze, .error ()⟩

/-! ## Relational commit (app.storage.partition.write_sqlite) -/

/-- One row of the per-type relational table, with the fixed column set of
write_sqlite.  The *_json columns store list values whose JSON text form is
modelled injectively by the values themselves. -/
structure Row where
  source_id : Option String
  title : Option String
  start : Option DStr
  «end» : Option DStr
  timezone : Option String
  venue_name : Option String
  address : Option String
  city : Option String
  country : Option String
  time_slots_json : List TimeSlot
  price_text : Option String
  price_value : Option Rat
  organizer : Option String
  url : Option String
  emails_json : List String
  phones_json : List String
  images_json : List String
  taxonomy_json : List String
  sport_type : Option String
  dedup_key : Key
  deriving DecidableEq, Repr

/-- The prepared parameter row for one entity (entity_key may raise on an
unparseable start, aborting the commit). -/
def prepareRow (e : Entity) : Except Unit Row := do
  let k ← entity_key e
  .ok ⟨e.source_id, e.title, e.start, e.«end», e.timezone, e.venue_name, e.address,
       e.city, e.country, e.time_slots.getD [], e.price_text, e.price_value,
       e.organizer, e.url, e.emails.getD [], e.phones.getD [], e.images.getD [],
       e.taxonomy.getD [], e.sport_type, k⟩

/-- The ON CONFLICT(dedup_key) DO UPDATE SET column assignments: the twelve
updated columns take the excluded (incoming) row's values; source_id, title,
venue_name, address, city, country, time_slots_json and the key itself keep
the existing row's values. -/
def applyUpsert (old incoming : Row) : Row :=
  { old with
      start := incoming.start,
      «end» := incoming.«end»,
      timezone := incoming.timezone,
      price_text := incoming.price_text,
      price_value := incoming.price_value,
      organizer := incoming.organizer,
      url := incoming.url,
      emails_json := incoming.emails_json,
      phones_json := incoming.phones_json,
      images_json := incoming.images_json,
      taxonomy_json := incoming.taxonomy_json,
      sport_type := incoming.sport_type }

/-- One INSERT ... ON CONFLICT for a prepared row against the table (the
UNIQUE dedup_key column is the conflict target). -/
def upsertRow (table : List Row) (r : Row) : List Row :=
  if table.any (fun old => old.dedup_key = r.dedup_key) then
    table.map (fun old => if old.dedup_key = r.dedup_key then applyUpsert old r else old)
  else table ++ [r]

/-- The CREATE TABLE NOT NULL constraints on the parameter columns that can
be null: sqlite3 rejects a row whose source_id, title, venue_name, address
or city is null (time_slots_json is also NOT NULL, but the prepared value
is always an orjson.dumps string, reflected by its non-optional type). -/
def rowNotNullOk (r : Row) : Bool :=
  r.source_id.isSome && r.title.isSome && r.venue_name.isSome &&
    r.address.isSome && r.city.isSome

/-- Model of write_sqlite for one entity type: prepare every row, then run
the executemany upserts in order.  A row that violates a NOT NULL column
constraint makes executemany raise sqlite3.IntegrityError; the commit is
never reached and the close rolls the transaction back, so the table is
unchanged and the exception propagates. -/
def write_sqlite (table : List Row) (entities : List Entity) : Except Unit (List Row) := do
  let rows ← entities.mapM prepareRow
  if rows.all rowNotNullOk then .ok (rows.foldl upsertRow table)
  else .error ()

/-! ## Job planner (app.orchestrator.scheduler.plan_jobs) -/

/-- The source fields plan_jobs consumes. -/
structure SourceConfig where
  source_id : String
  base_url : String
  type : String
  css_rules_path : String
  max_qps : Rat
  concurrency : Int
  deriving DecidableEq, Repr

/-- A planned job: the uuid4 job_id is supplied by a generator indexed by
the number of jobs already planned; metadata is flattened into fields. -/
structure JobM where
  job_id : String
  source_id : String
  entity_type : String
  url : String
  css_rules_path : String
  max_qps : Rat
  concurrency : Int
  deriving DecidableEq, Repr

/-- Build one job from a source. -/
def jobOfSource (jid : String) (s : SourceConfig) : JobM :=
  ⟨jid, s.source_id, s.type, s.base_url, s.css_rules_path, s.max_qps, s.concurrency⟩

/-- The planning loop: skip non-matching sources, append a job, and stop as
soon as the accumulated count reaches the limit (checked after appending). -/
def planJobsAux (genId : Nat → String) (etype : String) (lim : Int) :
    List SourceConfig → List JobM → List JobM
  | [], acc => acc
  | s :: rest, acc =>
      if etype ≠ "all" && s.type ≠ etype then planJobsAux genId etype lim rest acc
      else
        let acc' := acc ++ [jobOfSource (genId acc.length) s]
        if (acc'.length : Int) ≥ lim then acc'
        else planJobsAux genId etype lim rest acc'

/-- Model of plan_jobs. -/
def plan_jobs (genId : Nat → String) (sources : List SourceConfig)
    (entity_type : String) (limit : Int) : List JobM :=
  planJobsAux genId entity_type limit sources []

/-! ## Checkpointer (app.orchestrator.checkpoint) -/

/-- The serialisable checkpoint record. -/
structure JobCheckpointM where
  job_id : String
  url_cursor : String
  page_idx : Int
  discovered_urls_hash : String
  deriving DecidableEq, Repr

/-- Content of a checkpoint file: a JSON-encoded checkpoint or bytes that
orjson.loads rejects. -/
inductive CkFile where
  | ckpt (c : JobCheckpointM)
  | corrupt
  deriving DecidableEq, Repr

/-- The checkpoints directory: file content per run_id (the path is
root-slash-run_id.json), none when absent. -/
def CkFs : Type := String → Option CkFile

/-- Model of save_checkpoint: write the serialised record. -/
def save_checkpoint (fs : CkFs) (run_id : String) (c : JobCheckpointM) : CkFs :=
  fun r => if r = run_id then some (.ckpt c) else fs r

/-- Model of load_checkpoint: none when the file is absent, the record when
it parses.  A file orjson.loads rejects raises: json.loads throws
JSONDecodeError, and evaluating the handler clause orjson.JSONDecodeError
itself raises AttributeError because the bundled orjson module
(src/orjson.py) defines no such attribute — the exception propagates
instead of the except branch returning None. -/
def load_checkpoint (fs : CkFs) (run_id : String) :
    Except Unit (Option JobCheckpointM) :=
  match fs run_id with
  | none => .ok none
  | some .corrupt => .error ()
  | some (.ckpt c) => .ok (some c)

/-- Model of clear_checkpoint: unlink when present. -/
def clear_checkpoint (fs : CkFs) (run_id : String) : CkFs :=
  fun r => if r = run_id then none else fs r

/-! ## Robots cache (app.fetch.robots) -/

/-- A stdlib robots Entry as the interface can_fetch uses: whether it
applies to a user agent and the allowance it gives a url. -/
structure REntry where
  appliesTo : String → Bool
  allowance : String → Bool

/-- Model of urllib.robotparser.RobotFileParser state. -/
structure RParser where
  entries : List REntry
  defaultEntry : Option REntry
  lastChecked : Bool
  disallowAll : Bool
  allowAll : Bool

/-- RobotFileParser.parse: build entries from the lines (through the stdlib
line grammar, a parameter g of this model) and mark the file as checked;
parse never sets disallow_all or allow_all. -/
def rparse (g : List String → List REntry × Option REntry) (lines : List String) : RParser :=
  ⟨(g lines).1, (g lines).2, true, false, false⟩

/-- RobotFileParser.can_fetch: the flag checks, then the first applicable
entry, then the default entry, else allowed. -/
def canFetch (p : RParser) (ua url : String) : Bool :=
  if p.disallowAll then false
  else if p.allowAll then true
  else if !p.lastChecked then false
  else
    match p.entries.find? (fun en => en.appliesTo ua) with
    | some en => en.allowance url
    | none =>
        match p.defaultEntry with
        | some de => de.allowance url
        | none => true

/-- A parsed URL as RobotsCache.allowed inspects it. -/
structure UrlParts where
  scheme : String
  netloc : String
  pathq : String
  deriving DecidableEq, Repr

/-- The full url string handed to can_fetch. -/
def urlOf (u : UrlParts) : String := u.scheme ++ "://" ++ u.netloc ++ u.pathq

/-- Outcome of fetching scheme://netloc/robots.txt. -/
inductive RobotsFetch where
  | err
  | resp (status : Nat) (lines : List String)

/-- The network as seen by the robots cache: per-netloc fetch outcome. -/
def RWorld : Type := String → RobotsFetch

/-- The per-netloc parser cache. -/
def RCache : Type := String → Option RParser

/-- Model of RobotsCache.allowed: file scheme short-circuits to allowed with
no fetch; otherwise populate the per-netloc cache on miss (empty policy on a
transport error or status >= 400) and ask can_fetch.  The third component
records whether a robots.txt fetch was performed. -/
def robots_allowed (g : List String → List REntry × Option REntry)
    (world : RWorld) (ua : String) (cache : RCache) (u : UrlParts) :
    Bool × RCache × Bool :=
  if u.scheme = "file" then (true, cache, false)
  else
    match cache u.netloc with
    | some p => (canFetch p ua (urlOf u), cache, false)
    | none =>
        let p :=
          match world u.netloc with
          | .err => rparse g []
          | .resp st lines => if st ≥ 400 then rparse g [] else rparse g lines
        (canFetch p ua (urlOf u), fun k => if k = u.netloc then some p else cache k, true)

/-! ## Predicates and fixtures used by the theorems -/

/-- Regularity of a zone: the utc-to-local and local-to-utc conversions are
mutually inverse.  The first equation holds for every real tzdata zone; the
second fails at a DST spring-forward gap (a nonexistent local time), which
is exactly the boundary where the normalise pass loses idempotence. -/
def ZoneRegular (z : Zone) : Prop :=
  (∀ t, z.fromutc t - z.utcoffAtLocal (z.fromutc t) = t) ∧
  (∀ l, z.fromutc (l - z.utcoffAtLocal l) = l)

/-- Regularity lifted to an attached tzinfo: only a real zone carries
content; UTC and fixed offsets convert exactly by construction. -/
def TzRegular (t : TzInfo) : Prop :=
  match t with
  | .zone z => ZoneRegular z
  | _ => True

/-- The zone-database assumptions of the idempotence theorem: every
resolvable zone is regular, a zone registered under the key UTC has zero
offsets, and no synthesised UTC±HH:MM fallback name is shadowed by a real
database key (true of the IANA database). -/
def GoodZdb (zdb : Zdb) : Prop :=
  (∀ n z, zdb n = some z → ZoneRegular z) ∧
  (∀ z, zdb "UTC" = some z → ∀ l, z.utcoffAtLocal l = 0) ∧
  (∀ m : Int, zdb (synthName m) = none)

/-- Well-formedness of a datetime-position value: an explicit offset stays
under 24 hours, as every offset dateutil parses from ±HH:MM does. -/
def WfOff (v : Option DStr) : Prop :=
  match v with
  | some (.iso ⟨_, some o⟩) => o.natAbs < 1440
  | _ => True

/-- The job projection compared by the planner theorem (everything except
the generated uuid). -/
def projJob (j : JobM) : String × String × String × String × Rat × Int :=
  (j.source_id, j.entity_type, j.url, j.css_rules_path, j.max_qps, j.concurrency)

/-- The source projection matching projJob. -/
def projSource (s : SourceConfig) : String × String × String × String × Rat × Int :=
  (s.source_id, s.type, s.base_url, s.css_rules_path, s.max_qps, s.concurrency)

/-- The planner's keep condition (negation of its skip guard). -/
def keepSource (etype : String) (s : SourceConfig) : Bool :=
  !(etype ≠ "all" && s.type ≠ etype)

/-- An empty zone database. -/
def zdbEmpty : Zdb := fun _ => none

/-- A database with one regular UTC zone. -/
def zdbUTC : Zdb :=
  fun n => if n = "UTC" then some ⟨"UTC", fun t => t, fun _ => 0⟩ else none

/-- A zone shaped like a real DST spring-forward transition: on the minute
axis the UTC instant 60 starts summer time, local times in the gap interval
120 to 180 do not exist, offsets are plus 60 before and plus 120 after.
Satisfies the first (fromutc) regularity direction like every tzdata zone,
and violates the second exactly inside the gap. -/
def gapZone : Zone :=
  ⟨"Europe/Paris", fun t => if t < 60 then t + 60 else t + 120,
   fun l => if l < 180 then 60 else 120⟩

/-- A database exposing the gap zone. -/
def zdbGap : Zdb := fun n => if n = "Europe/Paris" then some gapZone else none

/-- An entity with every optional field absent. -/
def emptyEntity : Entity :=
  ⟨"events", none, none, none, none, none, none, none, none, none, none,
   none, none, none, none, none, none, none, none, none⟩

/-- Trivial contact extractors for concrete runs. -/
def noExtract : String → List String := fun _ => []

/-- Step parameters for concrete runs: empty zone database, trivial
extractors, identity prune, always-passing validation. -/
def p0 : StepParams := ⟨zdbEmpty, noExtract, noExtract, fun _ e => e, fun _ _ => true⟩

/-- The pristine run state: zeroed counters, nothing seen, empty indices. -/
def s0run : RunState := ⟨fun _ => 0, [], fun _ => [], fun _ => [], [], 0, 0, 0⟩

/-- The stages of _process_job that follow datetime normalisation. -/
def postDT (ee pe : String → List String) (x : Entity) : Entity :=
  map_taxonomy (normalise_urls (price_to_number (normalise_contacts ee pe x)))

/-- A naive-start entity with a resolvable UTC hint, for the idempotence
witness. -/
def eC6 : Entity :=
  { emptyEntity with
      timezone := some "UTC", start := some (.iso ⟨600, none⟩) }

/-- eC6 after one normalisation pass. -/
def eC6n : Entity :=
  { emptyEntity with
      timezone := some "UTC", start := some (.iso ⟨600, some 0⟩),
      emails := some [], phones := some [], taxonomy := some [] }

/-- An entity whose naive start 150 falls inside gapZone's nonexistent local
hour. -/
def eGap : Entity :=
  { emptyEntity with
      timezone := some "Europe/Paris",
      start := some (.iso ⟨150, none⟩) }

/-- eGap after one pass: the gap wall time is kept with the pre-gap offset,
an invalid local/offset pair. -/
def eGap1 : Entity :=
  { emptyEntity with
      timezone := some "Europe/Paris",
      start := some (.iso ⟨150, some 60⟩),
      emails := some [], phones := some [], taxonomy := some [] }

/-- eGap after two passes: the second pass honours the rendered offset and
shifts the start to wall time 210 at offset 120. -/
def eGap2 : Entity :=
  { emptyEntity with
      timezone := some "Europe/Paris",
      start := some (.iso ⟨210, some 120⟩),
      emails := some [], phones := some [], taxonomy := some [] }

/-- Dedup key of the concrete relational-commit example entity. -/
def keyC3 : Key := ⟨"jazz night", ⟨0, some 0⟩, "hall", "berlin", "s1"⟩

/-- A concrete incoming entity for the relational-commit claim: country FR. -/
def entC3 : Entity :=
  { emptyEntity with
      source_id := some "s1", title := some "Jazz Night",
      venue_name := some "Hall", address := some "Main St 1",
      city := some "Berlin", country := some "FR",
      start := some (.iso ⟨0, some 0⟩) }

/-- The prepared parameter row of entC3 (all NOT NULL columns present). -/
def rC3 : Row :=
  ⟨some "s1", some "Jazz Night", some (.iso ⟨0, some 0⟩), none, none, some "Hall",
   some "Main St 1", some "Berlin", some "FR", [], none, none, none, none,
   [], [], [], [], none, keyC3⟩

/-- A pre-existing relational row under the same dedup key: country DE, all
NOT NULL columns present (it could not be in the table otherwise). -/
def oldC3 : Row :=
  ⟨some "s1", some "Jazz Night", none, none, none, some "Hall", some "Old Lane 2",
   some "Berlin", some "DE", [], none, none, none, none, [], [], [], [],
   none, keyC3⟩

/-! ## Theorems -/

/-- C7 amended: saving a checkpoint and loading it returns an equal
checkpoint; after clearing, loading returns null; loading returns null when
the file is absent; but on a file that is not valid JSON load_checkpoint
raises (the except clause names orjson.JSONDecodeError, which the bundled
orjson module does not define, so an AttributeError propagates) instead of
returning null. -/
theorem c7_checkpoint_roundtrip (fs fsAbsent fsCorrupt : CkFs) (run_id : String)
    (c : JobCheckpointM)
    (habs : fsAbsent run_id = none)
    (hcor : fsCorrupt run_id = some .corrupt) :
    load_checkpoint (save_checkpoint fs run_id c) run_id = .ok (some c) ∧
    load_checkpoint (clear_checkpoint fs run_id) run_id = .ok none ∧
    load_checkpoint fsAbsent run_id = .ok none ∧
    load_checkpoint fsCorrupt run_id = .error () := by
  refine ⟨?_, ?_, ?_, ?_⟩
  · simp [load_checkpoint, save_checkpoint]
  · simp [load_checkpoint, clear_checkpoint]
  · simp [load_checkpoint, habs]
  · simp [load_checkpoint, hcor]

/-- C7 counterexample: on a checkpoint file whose content is not valid
JSON, load_checkpoint does not return null — the handler clause itself
fails (the bundled orjson has no JSONDecodeError) and the error
propagates. -/
theorem c7_corrupt_load_raises :
    load_checkpoint (fun _ => some .corrupt) "20240101T000000" = .error () ∧
    load_checkpoint (fun _ => some .corrupt) "20240101T000000" ≠ .ok none := by
  constructor
  · rfl
  · intro h
    have h' : (Except.error () : Except Unit (Option JobCheckpointM)) =
        .ok none := h
    exact Except.noConfusion h'

/-- C7 witness: the amended behaviour at a concrete run id and
checkpoint. -/
theorem c7_checkpoint_roundtrip_witness :
    load_checkpoint (save_checkpoint (fun _ => none) "20240101T000000" ⟨"j1", "http://a", 2, "h"⟩)
      "20240101T000000" = .ok (some ⟨"j1", "http://a", 2, "h"⟩) ∧
    load_checkpoint (clear_checkpoint (fun _ => none) "20240101T000000") "20240101T000000" =
      .ok none ∧
    load_checkpoint (fun _ => none) "20240101T000000" = .ok none ∧
    load_checkpoint (fun _ => some .corrupt) "20240101T000000" = .error () :=
  c7_checkpoint_roundtrip (fun _ => none) (fun _ => none) (fun _ => some .corrupt)
    "20240101T000000" ⟨"j1", "http://a", 2, "h"⟩ rfl rfl

/-- C8 counterexample: update with an empty-string etag stores an empty
string and headers_for then omits If-None-Match entirely, so the header is
not equal to the etag value passed in. -/
theorem c8_empty_etag_dropped :
    (headers_for (etag_update (fun _ => none) "http://a" (some "") (some "lm") 0)
        "http://a").ifNoneMatch = none ∧
    (none : Option String) ≠ some "" := by
  constructor
  · simp [headers_for, etag_update]
  · decide

/-- C8 amended: for every url and every non-empty etag and last-modified
value, update followed by headers_for yields If-None-Match equal to the
etag and If-Modified-Since equal to the last-modified value (a null or
empty value is stored as the empty string and its header is omitted). -/
theorem c8_update_headers_roundtrip (idx : EtagIndex) (u e m : String) (now : Nat)
    (he : e ≠ "") (hm : m ≠ "") :
    headers_for (etag_update idx u (some e) (some m) now) u = ⟨some e, some m⟩ := by
  simp [headers_for, etag_update, he, hm]

/-- C8 witness: the round trip at concrete values. -/
theorem c8_update_headers_roundtrip_witness :
    headers_for (etag_update (fun _ => none) "http://a" (some "W-x") (some "Mon") 7)
      "http://a" = ⟨some "W-x", some "Mon"⟩ :=
  c8_update_headers_roundtrip (fun _ => none) "http://a" "W-x" "Mon" 7
    (by decide) (by decide)

/-- C9: allowed returns true for every file URL without fetching, and for
every http or https URL whose robots.txt fetch raises a transport error or
answers with status at least 400 (the empty policy is allow-all). -/
theorem c9_robots_failopen (g : List String → List REntry × Option REntry)
    (world : RWorld) (ua : String) (cache : RCache) (ufile u : UrlParts)
    (hg : g [] = ([], none))
    (hfile : ufile.scheme = "file")
    (hscheme : u.scheme = "http" ∨ u.scheme = "https")
    (hmiss : cache u.netloc = none)
    (hfail : world u.netloc = .err ∨
      ∃ st lines, world u.netloc = .resp st lines ∧ 400 ≤ st) :
    robots_allowed g world ua cache ufile = (true, cache, false) ∧
    (robots_allowed g world ua cache u).1 = true := by
  have hcan : canFetch (rparse g []) ua (urlOf u) = true := by
    simp [canFetch, rparse, hg]
  constructor
  · simp [robots_allowed, hfile]
  · have hne : u.scheme ≠ "file" := by
      rcases hscheme with h | h <;> rw [h] <;> decide
    rcases hfail with herr | ⟨st, lines, hresp, hst⟩
    · simp [robots_allowed, hne, hmiss, herr, hcan]
    · simp [robots_allowed, hne, hmiss, hresp, hst, hcan]

/-- C9 witness: concrete file URL and a concrete host answering 404. -/
theorem c9_robots_failopen_witness :
    robots_allowed (fun _ => ([], none)) (fun _ => .resp 404 []) "bot"
      (fun _ => none) ⟨"file", "", "/tmp/x.html"⟩ = (true, fun _ => none, false) ∧
    (robots_allowed (fun _ => ([], none)) (fun _ => .resp 404 []) "bot"
      (fun _ => none) ⟨"http", "example.com", "/page"⟩).1 = true :=
  c9_robots_failopen (fun _ => ([], none)) (fun _ => .resp 404 []) "bot"
    (fun _ => none) ⟨"file", "", "/tmp/x.html"⟩ ⟨"http", "example.com", "/page"⟩
    rfl rfl (Or.inl rfl) rfl (Or.inr ⟨404, [], rfl, by decide⟩)


/-- Arithmetic facts about the effective planning budget max(limit, 1). -/
theorem maxLimFacts (lim : Int) :
    (1 : Int) ≤ max lim 1 ∧ lim ≤ max lim 1 ∧
    (max lim 1 = lim ∨ max lim 1 = 1) ∧ (((max lim 1).toNat : Int) = max lim 1) := by
  refine ⟨le_max_right _ _, le_max_left _ _, max_choice lim 1, ?_⟩
  exact Int.toNat_of_nonneg (le_trans (by norm_num) (le_max_right lim 1))

/-- Characterisation of the planning loop: up to job ids, the output extends
the accumulator with the matching sources taken up to the remaining budget,
where the effective budget is max(limit, 1) because the stop check runs only
after an append. -/
theorem planJobsAux_proj (genId : Nat → String) (etype : String) (lim : Int) :
    ∀ (rest : List SourceConfig) (acc : List JobM),
      acc.length < (max lim 1).toNat →
      (planJobsAux genId etype lim rest acc).map projJob =
        acc.map projJob ++
          ((rest.filter (keepSource etype)).take ((max lim 1).toNat - acc.length)).map
            projSource := by
  obtain ⟨hm1, hm2, hm3, hm4⟩ := maxLimFacts lim
  intro rest
  induction rest with
  | nil => intro acc hacc; simp [planJobsAux]
  | cons s rest ih =>
      intro acc hacc
      rw [planJobsAux]
      by_cases hX : (decide (etype ≠ "all") && decide (s.type ≠ etype)) = true
      · have hkeep : keepSource etype s = false := by unfold keepSource; rw [hX]; rfl
        rw [if_pos hX, ih acc hacc]
        simp [List.filter_cons, hkeep]
      · have hXf : (decide (etype ≠ "all") && decide (s.type ≠ etype)) = false := by
          simpa using hX
        have hkeep : keepSource etype s = true := by unfold keepSource; rw [hXf]; rfl
        rw [if_neg hX]
        by_cases hstop : ((acc ++ [jobOfSource (genId acc.length) s]).length : Int) ≥ lim
        · rw [if_pos hstop]
          have hone : (max lim 1).toNat - acc.length = 1 := by
            simp only [List.length_append, List.length_cons, List.length_nil,
              Nat.cast_add, Nat.cast_one] at hstop
            omega
          simp [List.filter_cons, hkeep, hone, projJob, projSource, jobOfSource]
        · rw [if_neg hstop]
          have hlt : (acc ++ [jobOfSource (genId acc.length) s]).length < (max lim 1).toNat := by
            simp only [List.length_append, List.length_cons, List.length_nil,
              Nat.cast_add, Nat.cast_one, not_le] at hstop ⊢
            omega
          rw [ih _ hlt]
          have htake : (max lim 1).toNat - acc.length =
              ((max lim 1).toNat - (acc ++ [jobOfSource (genId acc.length) s]).length) + 1 := by
            simp only [List.length_append, List.length_cons, List.length_nil,
              Nat.cast_add, Nat.cast_one, not_le] at hstop ⊢
            omega
          rw [htake]
          simp [List.filter_cons, hkeep, List.take_succ_cons, projJob, projSource, jobOfSource]

/-- C4 counterexample: with integer limit 0 and one matching source,
plan_jobs emits one job, exceeding the limit, because the stop check runs
only after the first append. -/
theorem c4_nonpositive_limit_emits_job :
    (plan_jobs (fun _ => "u1") [⟨"s1", "http://a", "events", "rules.yaml", 1, 1⟩]
        "events" 0).length = 1 ∧ ¬ ((1 : Int) ≤ 0) := by
  constructor
  · rfl
  · decide

/-- C4 amended: for limit at least 1, plan_jobs emits at most limit jobs,
and up to the generated job ids the output is exactly the matching sources
(type equal to the request, or any type when the request is all) in input
order truncated at the limit, each job's url and metadata drawn from the
source.  A non-positive limit still emits one job when any source matches. -/
theorem c4_plan_jobs_filtered_bounded (genId : Nat → String)
    (sources : List SourceConfig) (etype : String) (lim : Int)
    (hlim : (1 : Int) ≤ lim) :
    ((plan_jobs genId sources etype lim).length : Int) ≤ lim ∧
    (plan_jobs genId sources etype lim).map projJob =
      ((sources.filter (keepSource etype)).take lim.toNat).map projSource := by
  obtain ⟨hm1, hm2, hm3, hm4⟩ := maxLimFacts lim
  have hk : (max lim 1).toNat = lim.toNat := by
    have : max lim 1 = lim := max_eq_left hlim
    rw [this]
  have h0 : ([] : List JobM).length < (max lim 1).toNat := by
    simp only [List.length_nil]
    omega
  have h := planJobsAux_proj genId etype lim sources [] h0
  simp only [List.map_nil, List.nil_append, List.length_nil, Nat.sub_zero, hk] at h
  refine ⟨?_, h⟩
  have hlen : (plan_jobs genId sources etype lim).length =
      ((sources.filter (keepSource etype)).take lim.toNat).length := by
    have h2 := congrArg List.length h
    simpa using h2
  have h3 : ((sources.filter (keepSource etype)).take lim.toNat).length ≤ lim.toNat :=
    List.length_take_le _ _
  omega

/-- C4 witness: two sources of different types, requested type events,
limit 1: at most one job, drawn from the matching source in order. -/
theorem c4_plan_jobs_filtered_bounded_witness :
    (((plan_jobs (fun n => toString n)
        [⟨"s1", "http://a", "sports", "r1.yaml", 1, 2⟩,
         ⟨"s2", "http://b", "events", "r2.yaml", 2, 3⟩]
        "events" 1).length : Int) ≤ 1) ∧
    (plan_jobs (fun n => toString n)
        [⟨"s1", "http://a", "sports", "r1.yaml", 1, 2⟩,
         ⟨"s2", "http://b", "events", "r2.yaml", 2, 3⟩]
        "events" 1).map projJob =
      (([⟨"s1", "http://a", "sports", "r1.yaml", 1, 2⟩,
         ⟨"s2", "http://b", "events", "r2.yaml", 2, 3⟩].filter
          (keepSource "events")).take (1 : Int).toNat).map projSource :=
  c4_plan_jobs_filtered_bounded (fun n => toString n)
    [⟨"s1", "http://a", "sports", "r1.yaml", 1, 2⟩,
     ⟨"s2", "http://b", "events", "r2.yaml", 2, 3⟩]
    "events" 1 (by norm_num)

/-- C3 amended: committing an entity whose dedup key matches an existing row
and whose prepared row satisfies the NOT NULL column constraints updates
that row in place, replacing start, end, timezone, price_text, price_value,
organizer, url, the list-valued json columns and sport_type with the
incoming values, while source_id, title, venue_name, address, city and
additionally country and time_slots_json keep their prior values.  (A row
with a null NOT NULL column instead raises IntegrityError and commits
nothing; see the counterexample.) -/
theorem c3_upsert_replaces_and_keeps (table : List Row) (old : Row) (e : Entity) (r : Row)
    (hprep : prepareRow e = .ok r) (hnn : rowNotNullOk r = true)
    (hmem : old ∈ table) (hk : old.dedup_key = r.dedup_key) :
    write_sqlite table [e] =
      .ok (table.map
        (fun o => if o.dedup_key = r.dedup_key then applyUpsert o r else o)) ∧
    (applyUpsert old r).start = r.start ∧
    (applyUpsert old r).«end» = r.«end» ∧
    (applyUpsert old r).timezone = r.timezone ∧
    (applyUpsert old r).price_text = r.price_text ∧
    (applyUpsert old r).price_value = r.price_value ∧
    (applyUpsert old r).organizer = r.organizer ∧
    (applyUpsert old r).url = r.url ∧
    (applyUpsert old r).emails_json = r.emails_json ∧
    (applyUpsert old r).phones_json = r.phones_json ∧
    (applyUpsert old r).images_json = r.images_json ∧
    (applyUpsert old r).taxonomy_json = r.taxonomy_json ∧
    (applyUpsert old r).sport_type = r.sport_type ∧
    (applyUpsert old r).source_id = old.source_id ∧
    (applyUpsert old r).title = old.title ∧
    (applyUpsert old r).venue_name = old.venue_name ∧
    (applyUpsert old r).address = old.address ∧
    (applyUpsert old r).city = old.city ∧
    (applyUpsert old r).country = old.country ∧
    (applyUpsert old r).time_slots_json = old.time_slots_json := by
  have hconflict : table.any (fun o => o.dedup_key = r.dedup_key) = true := by
    rw [List.any_eq_true]
    exact ⟨old, hmem, by simp [hk]⟩
  refine ⟨?_, by simp [applyUpsert], by simp [applyUpsert], by simp [applyUpsert],
    by simp [applyUpsert], by simp [applyUpsert], by simp [applyUpsert],
    by simp [applyUpsert], by simp [applyUpsert], by simp [applyUpsert],
    by simp [applyUpsert], by simp [applyUpsert], by simp [applyUpsert],
    by simp [applyUpsert], by simp [applyUpsert], by simp [applyUpsert],
    by simp [applyUpsert], by simp [applyUpsert], by simp [applyUpsert],
    by simp [applyUpsert]⟩
  simp only [write_sqlite, List.mapM_cons, List.mapM_nil, hprep]
  have hall : List.all [r] rowNotNullOk = true := by
    simp [hnn]
  show (if List.all [r] rowNotNullOk = true then
      Except.ok (List.foldl upsertRow table [r]) else Except.error ()) =
    Except.ok (table.map (fun o => if o.dedup_key = r.dedup_key then applyUpsert o r else o))
  rw [hall]
  show Except.ok (List.foldl upsertRow table [r]) =
    Except.ok (table.map (fun o => if o.dedup_key = r.dedup_key then applyUpsert o r else o))
  simp [upsertRow, hconflict]

/-- C3 counterexample: upserting an incoming entity with country FR onto an
existing row with country DE leaves the stored country DE — the country
column is not replaced, though it is not among the five columns the claim
exempts (time_slots_json behaves the same way); and an incoming entity
whose address is null does not reach the upsert at all: the NOT NULL
constraint makes the commit raise IntegrityError. -/
theorem c3_country_kept_counterexample :
    (write_sqlite [oldC3] [entC3]).toOption.map (fun t => t.map Row.country) =
      some [some "DE"] ∧
    entC3.country = some "FR" ∧
    write_sqlite [oldC3] [{ entC3 with address := none }] = .error () := by
  refine ⟨?_, ?_, ?_⟩
  · rfl
  · rfl
  · rfl

/-- C3 witness: the amended upsert equation at the concrete row and entity. -/
theorem c3_upsert_replaces_and_keeps_witness :
    write_sqlite [oldC3] [entC3] =
      .ok ([oldC3].map
        (fun o => if o.dedup_key = rC3.dedup_key then applyUpsert o rC3 else o)) :=
  (c3_upsert_replaces_and_keeps [oldC3] oldC3 entC3 rC3 (by rfl) (by rfl)
    (by simp) (by rfl)).1

/-- Assignment on a dict leaves the binding of every other key unchanged. -/
theorem lookup_setKey_ne (d : PyDict) (k' k : String) (v : PyVal) (h : k' ≠ k) :
    (setKey d k' v).lookup k = d.lookup k := by
  have hbk : (k == k') = false := by simp [beq_iff_eq]; exact fun he => h he.symm
  induction d with
  | nil =>
      show List.lookup k [(k', v)] = List.lookup k []
      simp only [List.lookup, hbk]
  | cons kv rest ih =>
      obtain ⟨a, b⟩ := kv
      show List.lookup k (if a = k' then (k', v) :: rest else (a, b) :: setKey rest k' v) =
        List.lookup k ((a, b) :: rest)
      by_cases ha : a = k'
      · rw [if_pos ha]
        subst ha
        simp only [List.lookup, hbk]
      · rw [if_neg ha]
        simp only [List.lookup]
        cases hbeq : (k == a)
        · exact ih
        · rfl

/-- The merge loop keeps the binding of a key whose candidate occurrences
are all falsy or equal to the existing value. -/
theorem mergeLoop_untouched (ex : PyDict) (k : String) :
    ∀ (cand : List (String × PyVal)) (acc : PyDict × Bool),
      acc.1.lookup k = ex.lookup k →
      (∀ v, (k, v) ∈ cand → isEmptyLike v = true ∨ pyEq (pyGet ex k) v = true) →
      ((mergeLoop acc cand).1).lookup k = ex.lookup k := by
  intro cand
  induction cand with
  | nil => intro acc hinv _; exact hinv
  | cons kv rest ih =>
      intro acc hinv hk
      obtain ⟨k', v⟩ := kv
      by_cases hemp : isEmptyLike v = true
      · rw [mergeLoop, if_pos hemp]
        exact ih acc hinv (fun w hw => hk w (List.mem_cons_of_mem _ hw))
      · rw [mergeLoop, if_neg hemp]
        by_cases heq : pyEq (pyGet acc.1 k') v = true
        · rw [if_pos heq]
          exact ih acc hinv (fun w hw => hk w (List.mem_cons_of_mem _ hw))
        · rw [if_neg heq]
          by_cases hkk : k' = k
          · subst hkk
            rcases hk v (List.mem_cons_self _ _) with h | h
            · exact absurd h hemp
            · have : pyGet acc.1 k' = pyGet ex k' := by
                unfold pyGet
                rw [hinv]
              rw [this] at heq
              exact absurd h heq
          · refine ih _ ?_ (fun w hw => hk w (List.mem_cons_of_mem _ hw))
            show (setKey acc.1 k' v).lookup k = ex.lookup k
            rw [lookup_setKey_ne _ _ _ _ hkk]
            exact hinv

/-- C10: EntityMerger.merge leaves untouched every key of the existing dict
for which every candidate binding is null, empty string, empty list, empty
dict, or equal to the existing value; the returned dict is the final state
of the existing dict (the loop assigns only into existing and the function
returns it; the candidate is never written to). -/
theorem c10_merge_frame (ex cand : PyDict) (k : String)
    (hk : ∀ v, (k, v) ∈ cand → isEmptyLike v = true ∨ pyEq (pyGet ex k) v = true) :
    ((mergeDict ex cand).1).lookup k = ex.lookup k :=
  mergeLoop_untouched ex k cand (ex, false) rfl hk

/-- C10 witness: a concrete merge where the candidate holds a null, an
empty string and an equal value for three existing keys, all untouched. -/
theorem c10_merge_frame_witness :
    ((mergeDict [("a", .str "x"), ("b", .intg 3), ("c", .list [.intg 1])]
        [("a", .null), ("b", .str ""), ("c", .list [.intg 1]), ("d", .str "new")]).1).lookup
        "a" =
      ([("a", .str "x"), ("b", .intg 3), ("c", .list [.intg 1])] : PyDict).lookup "a" :=
  c10_merge_frame [("a", .str "x"), ("b", .intg 3), ("c", .list [.intg 1])]
    [("a", .null), ("b", .str ""), ("c", .list [.intg 1]), ("d", .str "new")] "a"
    (by
      intro v hv
      simp only [List.mem_cons, List.not_mem_nil, or_false] at hv
      rcases hv with h | h | h | h
      · injection h with h1 h2; subst h2; left; decide
      · injection h with h1 h2; exact absurd h1 (by decide)
      · injection h with h1 h2; exact absurd h1 (by decide)
      · injection h with h1 h2; exact absurd h1 (by decide))

/-- Incrementing a counter raises it by one. -/
theorem bump_self (m : String → Int) (n : String) : bump m n n = m n + 1 := by
  simp [bump]

/-- Incrementing a counter leaves every other counter unchanged. -/
theorem bump_other (m : String → Int) (n x : String) (h : x ≠ n) : bump m n x = m x := by
  simp [bump, h]

/-- A status-bucket counter name never collides with a name that does not
start with the letter h. -/
theorem httpName_ne (s t : String) (h : t.data.head? ≠ some 'h') :
    ("http_" ++ s ++ "xx") ≠ t := by
  intro he
  apply h
  rw [← he]
  rfl

/-- C2 counterexample: a 304 response bumps pages_fetched and http_3xx even
though 304 is not a 2xx status, contradicting the only-on-2xx claim. -/
theorem c2_304_bumps_fetch_counters :
    (fetch_document true (.ok ⟨304, ⟨some "W-e", some "Mon"⟩, ""⟩) "http://u" 0 0
        (fun _ => 0) (fun _ => none) []).metrics "pages_fetched" = 1 ∧
    (fetch_document true (.ok ⟨304, ⟨some "W-e", some "Mon"⟩, ""⟩) "http://u" 0 0
        (fun _ => 0) (fun _ => none) []).metrics "http_3xx" = 1 ∧
    ¬ (200 ≤ 304 ∧ 304 ≤ 299) := by
  refine ⟨by rfl, by rfl, by decide⟩

/-- C2 amended: fetch_document bumps pages_fetched (and the bucket counter)
on every response regardless of status; on a 304 it additionally bumps only
unchanged_skips, updates the conditional cache with the response's ETag and
Last-Modified, persists no snapshot, and returns null. -/
theorem c2_fetch_on_304 (r : Response) (url : String) (now : Int) (tnow : Nat)
    (m : String → Int) (cache : EtagIndex) (bronze : Bronze)
    (h304 : r.status = 304) :
    (∀ r2 : Response,
      (fetch_document true (.ok r2) url now tnow m cache bronze).metrics "pages_fetched" =
        m "pages_fetched" + 1) ∧
    fetch_document true (.ok r) url now tnow m cache bronze =
      ⟨bump (bump (bump m "pages_fetched") "http_3xx") "unchanged_skips",
       etag_update cache url r.headers.etag r.headers.last_modified tnow,
       bronze, .ok none⟩ := by
  have hpf : ∀ (mm : String → Int) (s : String),
      bump (bump mm "pages_fetched") ("http_" ++ s ++ "xx") "pages_fetched" =
        mm "pages_fetched" + 1 := by
    intro mm s
    rw [bump_other _ _ _ (Ne.symm (httpName_ne s "pages_fetched" (by decide)))]
    exact bump_self mm "pages_fetched"
  constructor
  · intro r2
    by_cases h1 : r2.status = 304
    · simp only [fetch_document, Bool.not_true, Bool.false_eq_true, if_false, h1, if_true]
      rw [bump_other _ _ _ (by decide)]
      exact hpf m (toString (304 / 100))
    · by_cases h2 : (200 ≤ r2.status && r2.status ≤ 299) = true
      · simp only [fetch_document, Bool.not_true, Bool.false_eq_true, if_false, h1,
          if_false, h2, if_true]
        exact hpf m (toString (r2.status / 100))
      · simp only [fetch_document, Bool.not_true, Bool.false_eq_true, if_false, h1,
          if_false, h2]
        exact hpf m (toString (r2.status / 100))
  · have hname : "http_" ++ toString (304 / 100) ++ "xx" = "http_3xx" := by rfl
    simp only [fetch_document, Bool.not_true, Bool.false_eq_true, if_false, h304,
      if_true, hname]

/-- C2 witness: the 304 contract at a concrete response and empty state. -/
theorem c2_fetch_on_304_witness :
    fetch_document true (.ok ⟨304, ⟨some "W-e", some "Mon"⟩, "body"⟩) "http://u" 5 9
        (fun _ => 0) (fun _ => none) [] =
      ⟨bump (bump (bump (fun _ => 0) "pages_fetched") "http_3xx") "unchanged_skips",
       etag_update (fun _ => none) "http://u" (some "W-e") (some "Mon") 9,
       [], .ok none⟩ :=
  (c2_fetch_on_304 ⟨304, ⟨some "W-e", some "Mon"⟩, "body"⟩ "http://u" 5 9
    (fun _ => 0) (fun _ => none) [] rfl).2

/-- Binding a successful Except value applies the continuation. -/
theorem ok_bind {α β : Type} (a : α) (f : α → Except Unit β) :
    (Except.ok a >>= f) = f a := rfl

/-- The dedup key of an entity with a parseable start, in closed form. -/
theorem entity_key_start (a : Entity) (n : Int) (o : Option Int) :
    entity_key { a with start := some (.iso ⟨n, o⟩) } =
      .ok ⟨normWs ((truthyStr a.title).getD ""),
           ⟨n - n % 1440, o⟩,
           normWs (((truthyStr a.venue_name).or (truthyStr a.address)).getD ""),
           normWs ((truthyStr a.city).getD ""),
           (truthyStr a.source_id).getD ""⟩ := by
  rfl

/-- C5: after remembering an entity a with a parseable start, is_duplicate
returns true for the entity identical to a except its start shifted by
exactly plus or minus one day (same title, venue or address, city and
source), via the near-key probe. -/
theorem c5_shifted_start_is_duplicate (a : Entity) (d : IsoDT) (seen seen1 : List Key)
    (dlt : Int) (ha : a.start = some (.iso d)) (hd : dlt = 1 ∨ dlt = -1)
    (hrem : rememberKey seen a = .ok seen1) :
    is_duplicate seen1 { a with start := some (.iso ⟨d.naive + dlt * 1440, d.tzo⟩) } =
      .ok true := by
  have hka : entity_key a =
      .ok ⟨normWs ((truthyStr a.title).getD ""),
           ⟨d.naive - d.naive % 1440, d.tzo⟩,
           normWs (((truthyStr a.venue_name).or (truthyStr a.address)).getD ""),
           normWs ((truthyStr a.city).getD ""),
           (truthyStr a.source_id).getD ""⟩ := by
    have h1 := entity_key_start a d.naive d.tzo
    rw [show (⟨d.naive, d.tzo⟩ : IsoDT) = d from rfl] at h1
    rw [← ha] at h1
    exact h1
  have hs1 : seen1 =
      (⟨normWs ((truthyStr a.title).getD ""),
        ⟨d.naive - d.naive % 1440, d.tzo⟩,
        normWs (((truthyStr a.venue_name).or (truthyStr a.address)).getD ""),
        normWs ((truthyStr a.city).getD ""),
        (truthyStr a.source_id).getD ""⟩ : Key) :: seen := by
    have h2 := hrem
    simp only [rememberKey, hka, ok_bind] at h2
    injection h2 with h3
    exact h3.symm
  subst hs1
  rw [is_duplicate]
  rw [entity_key_start a (d.naive + dlt * 1440) d.tzo]
  simp only [ok_bind]
  set K : Key := ⟨normWs ((truthyStr a.title).getD ""),
    ⟨d.naive - d.naive % 1440, d.tzo⟩,
    normWs (((truthyStr a.venue_name).or (truthyStr a.address)).getD ""),
    normWs ((truthyStr a.city).getD ""),
    (truthyStr a.source_id).getD ""⟩ with hK
  by_cases hc : ((K :: seen).contains
      ⟨normWs ((truthyStr a.title).getD ""),
       ⟨d.naive + dlt * 1440 - (d.naive + dlt * 1440) % 1440, d.tzo⟩,
       normWs (((truthyStr a.venue_name).or (truthyStr a.address)).getD ""),
       normWs ((truthyStr a.city).getD ""),
       (truthyStr a.source_id).getD ""⟩ : Bool) = true
  · rw [if_pos hc]
  · rw [if_neg hc]
    show Except.ok
        ([(⟨normWs ((truthyStr a.title).getD ""),
            ⟨d.naive + dlt * 1440 + (-1) * 1440 -
              (d.naive + dlt * 1440 + (-1) * 1440) % 1440, d.tzo⟩,
            normWs (((truthyStr a.venue_name).or (truthyStr a.address)).getD ""),
            normWs ((truthyStr a.city).getD ""),
            (truthyStr a.source_id).getD ""⟩ : Key),
          ⟨normWs ((truthyStr a.title).getD ""),
            ⟨d.naive + dlt * 1440 + 1 * 1440 -
              (d.naive + dlt * 1440 + 1 * 1440) % 1440, d.tzo⟩,
            normWs (((truthyStr a.venue_name).or (truthyStr a.address)).getD ""),
            normWs ((truthyStr a.city).getD ""),
            (truthyStr a.source_id).getD ""⟩].any (K :: seen).contains) = Except.ok true
    rcases hd with rfl | rfl
    · have harith : d.naive + 1 * 1440 + (-1) * 1440 = d.naive := by ring
      rw [harith, ← hK]
      simp [List.contains_cons]
    · have harith : d.naive + (-1) * 1440 + 1 * 1440 = d.naive := by ring
      rw [harith, ← hK]
      simp [List.contains_cons]

/-- C5 witness: a concrete remembered entity and its one-day-later twin. -/
theorem c5_shifted_start_is_duplicate_witness :
    is_duplicate
      [⟨"jazz night", ⟨1440, some 60⟩, "hall", "berlin", "s1"⟩]
      { entC3 with start := some (.iso ⟨2000 + 1 * 1440, some 60⟩) } = .ok true := by
  have h := c5_shifted_start_is_duplicate
    { entC3 with start := some (.iso ⟨2000, some 60⟩) } ⟨2000, some 60⟩ [] _ 1
    rfl (Or.inl rfl) rfl
  exact h

/-- The quarantine branch raises exactly validates_failed among the four
outcome counters. -/
theorem outcomeSum_reject (s : RunState) (e : Entity) :
    outcomeSum (quarantineReject s e) = outcomeSum s + 1 := by
  have h1 : bump (bump s.metrics "validates_failed") "quarantine_rows" "entities_new" =
      s.metrics "entities_new" := by
    rw [bump_other _ _ _ (by decide), bump_other _ _ _ (by decide)]
  have h2 : bump (bump s.metrics "validates_failed") "quarantine_rows" "entities_updated" =
      s.metrics "entities_updated" := by
    rw [bump_other _ _ _ (by decide), bump_other _ _ _ (by decide)]
  have h3 : bump (bump s.metrics "validates_failed") "quarantine_rows" "duplicates" =
      s.metrics "duplicates" := by
    rw [bump_other _ _ _ (by decide), bump_other _ _ _ (by decide)]
  have h4 : bump (bump s.metrics "validates_failed") "quarantine_rows" "validates_failed" =
      s.metrics "validates_failed" + 1 := by
    rw [bump_other _ _ _ (by decide), bump_self]
  simp only [outcomeSum, quarantineReject, h1, h2, h3, h4]
  ring

/-- The duplicate branch raises exactly duplicates among the four outcome
counters. -/
theorem outcomeSum_dup (s : RunState) :
    outcomeSum { s with metrics := bump s.metrics "duplicates" } = outcomeSum s + 1 := by
  simp only [outcomeSum]
  rw [bump_other _ _ _ (by decide), bump_other _ _ _ (by decide), bump_self,
    bump_other _ _ _ (by decide)]
  ring

/-- The fresh-insert branch raises exactly entities_new among the four
outcome counters. -/
theorem outcomeSum_insert (s : RunState) (t : String) (k : Key) (ce : Entity) :
    outcomeSum (insertNew s t k ce) = outcomeSum s + 1 := by
  simp only [outcomeSum, insertNew]
  rw [bump_self, bump_other _ _ _ (by decide), bump_other _ _ _ (by decide),
    bump_other _ _ _ (by decide)]
  ring

/-- A dict assignment binds the assigned key or leaves a key's binding as it
was. -/
theorem lookup_setAssoc_isSome (l : List (Key × Entity)) (k k2 : Key) (v : Entity)
    (h : ((setAssoc l k v).lookup k2).isSome) :
    k2 = k ∨ (l.lookup k2).isSome := by
  induction l with
  | nil =>
      by_cases hk2 : k2 = k
      · exact Or.inl hk2
      · have hbeq : (k2 == k) = false := beq_eq_false_iff_ne.mpr hk2
        simp only [setAssoc, List.lookup, hbeq] at h
        simp at h
  | cons kv rest ih =>
      obtain ⟨a, b⟩ := kv
      by_cases hk2a : k2 = a
      · subst hk2a
        right
        simp [List.lookup]
      · have hbeq : (k2 == a) = false := beq_eq_false_iff_ne.mpr hk2a
        by_cases ha : a = k
        · subst ha
          rw [setAssoc, if_pos rfl] at h
          have hbk : (k2 == a) = false := hbeq
          simp only [List.lookup, hbk] at h ⊢
          exact Or.inr h
        · rw [setAssoc, if_neg ha] at h
          simp only [List.lookup, hbeq] at h ⊢
          rcases ih h with h1 | h1
          · exact Or.inl h1
          · exact Or.inr h1

/-- One successfully processed candidate bumps exactly one of the four
outcome counters and preserves the index-subset-of-seen invariant. -/
theorem stepEntity_ok (p : StepParams) (s : RunState) (e0 : Entity)
    (hinv : IndexSubSeen s) (hok : (stepEntity p s e0).2 = true) :
    outcomeSum (stepEntity p s e0).1 = outcomeSum s + 1 ∧
    IndexSubSeen (stepEntity p s e0).1 := by
  cases hn : normalisePass p.zdb p.ee p.pe e0 with
  | error u =>
      simp only [stepEntity, hn] at hok
      simp at hok
  | ok e =>
      simp only [stepEntity, hn] at hok ⊢
      by_cases hval : p.validate e.type (cleanOf p e) = false
      · rw [if_pos hval] at hok ⊢
        exact ⟨outcomeSum_reject s e, hinv⟩
      · rw [if_neg hval] at hok ⊢
        cases hdup : is_duplicate s.seen (cleanOf p e) with
        | error u =>
            simp only [hdup] at hok
            simp at hok
        | ok b =>
            cases b with
            | true =>
                simp only [hdup] at hok ⊢
                exact ⟨outcomeSum_dup s, hinv⟩
            | false =>
                simp only [hdup] at hok ⊢
                cases hk : entity_key (cleanOf p e) with
                | error u =>
                    simp only [hk] at hok
                    simp at hok
                | ok k =>
                    simp only [hk] at hok ⊢
                    have hcontains : s.seen.contains k = false := by
                      cases hcon : s.seen.contains k
                      · rfl
                      · rw [is_duplicate, hk] at hdup
                        simp only [ok_bind] at hdup
                        rw [if_pos hcon] at hdup
                        exact absurd hdup (by simp)
                    cases hlook : (s.resultsIndex e.type).lookup k with
                    | some existing =>
                        exfalso
                        have hsome : ((s.resultsIndex e.type).lookup k).isSome := by
                          rw [hlook]; rfl
                        have h5 : s.seen.contains k = true := hinv e.type k hsome
                        exact absurd (h5.symm.trans hcontains) (by decide)
                    | none =>
                        simp only [hlook]
                        refine ⟨outcomeSum_insert s e.type k (cleanOf p e), ?_⟩
                        intro t k2 hsome
                        simp only [insertNew] at hsome ⊢
                        by_cases ht : t = e.type
                        · simp only [setIdxF, if_pos ht] at hsome
                          rcases lookup_setAssoc_isSome _ _ _ _ hsome with rfl | h2
                          · simp [List.contains_cons]
                          · have h3 := hinv e.type k2 (ht ▸ h2)
                            simp at h3
                            simp [List.contains_cons]
                            exact Or.inr h3
                        · simp only [setIdxF, if_neg ht] at hsome
                          have h3 := hinv t k2 hsome
                          simp at h3
                          simp [List.contains_cons]
                          exact Or.inr h3

/-- Processing a list of candidates without an abort raises the outcome-sum
by exactly the number of candidates. -/
theorem processEntities_ok (p : StepParams) :
    ∀ (es : List Entity) (s : RunState),
      IndexSubSeen s → (processEntities p s es).2 = true →
      outcomeSum (processEntities p s es).1 = outcomeSum s + es.length ∧
      IndexSubSeen (processEntities p s es).1 := by
  intro es
  induction es with
  | nil =>
      intro s hinv _
      simp [processEntities, hinv]
  | cons e rest ih =>
      intro s hinv hok
      rw [processEntities] at hok ⊢
      cases hstep : (stepEntity p s e).2
      · have hcond : ¬ ((stepEntity p s e).2 = true) := by rw [hstep]; decide
        rw [if_neg hcond] at hok
        simp at hok
      · rw [if_pos hstep] at hok
        rw [if_pos rfl]
        obtain ⟨h1, h2⟩ := stepEntity_ok p s e hinv hstep
        obtain ⟨h3, h4⟩ := ih (stepEntity p s e).1 h2 hok
        refine ⟨?_, h4⟩
        rw [h3, h1]
        simp only [List.length_cons]
        push_cast
        ring

/-- C1 counterexample: a candidate whose start string is unparseable reaches
the normalise stage, raises there, aborts the job and increments none of
validates_failed, duplicates, entities_new, entities_updated — so one
candidate was considered but the four counters still sum to zero. -/
theorem c1_unparseable_start_bumps_nothing :
    processEntities p0 s0run [{ emptyEntity with start := some (.malformed "not a date") }] =
      (s0run, false) ∧
    outcomeSum s0run = 0 ∧
    [{ emptyEntity with start := some (.malformed "not a date") }].length = 1 := by
  refine ⟨rfl, rfl, rfl⟩

/-- C1 amended: in every run state satisfying the index-subset-of-seen
invariant (true of a fresh run), each candidate whose processing completes
without an exception increments exactly one of validates_failed,
duplicates, entities_new, entities_updated, so an abort-free batch raises
their sum by exactly the number of candidates considered; a candidate whose
normalisation raises aborts the job having incremented none of them. -/
theorem c1_counter_conservation (p : StepParams) (es : List Entity) (s : RunState)
    (hinv : IndexSubSeen s) (hok : (processEntities p s es).2 = true) :
    outcomeSum (processEntities p s es).1 = outcomeSum s + es.length :=
  (processEntities_ok p es s hinv hok).1

/-- C1 witness: one accepted candidate from the pristine state raises the
outcome sum from zero to one. -/
theorem c1_counter_conservation_witness :
    outcomeSum (processEntities p0 s0run [emptyEntity]).1 =
      outcomeSum s0run + ([emptyEntity] : List Entity).length :=
  c1_counter_conservation p0 [emptyEntity] s0run
    (by intro t k h; simp [s0run] at h) rfl

/-- The head surviving dropWhile fails the predicate. -/
theorem dropWhile_head_false (p : Char → Bool) :
    ∀ (l : List Char) (c : Char) (cs : List Char),
      List.dropWhile p l = c :: cs → p c = false := by
  intro l
  induction l with
  | nil => intro c cs h; simp [List.dropWhile] at h
  | cons a t ih =>
      intro c cs h
      rw [List.dropWhile] at h
      cases hpa : p a
      · rw [hpa] at h
        injection h with h1 h2
        rw [← h1]
        exact hpa
      · rw [hpa] at h
        exact ih c cs h

/-- Removing trailing matches is idempotent. -/
theorem dropTrail_idem (p : Char → Bool) :
    ∀ l : List Char, dropTrail p (dropTrail p l) = dropTrail p l := by
  intro l
  induction l with
  | nil => rfl
  | cons c cs ih =>
      rw [dropTrail]
      by_cases hc : ((dropTrail p cs).isEmpty && p c) = true
      · rw [if_pos hc]
        rfl
      · rw [if_neg hc]
        rw [dropTrail, ih]
        rw [if_neg hc]

/-- Leading-whitespace removal is a no-op after a strip whose input already
had no leading whitespace. -/
theorem dropWhile_dropTrail (p : Char → Bool) (m : List Char)
    (hm : ∀ c cs, m = c :: cs → p c = false) :
    List.dropWhile p (dropTrail p m) = dropTrail p m := by
  cases m with
  | nil => rfl
  | cons c cs =>
      have hc : p c = false := hm c cs rfl
      rw [dropTrail]
      by_cases hcond : ((dropTrail p cs).isEmpty && p c) = true
      · rw [if_pos hcond]; rfl
      · rw [if_neg hcond]
        rw [List.dropWhile, hc]

/-- Python str.strip is idempotent. -/
theorem pyStrip_idem (s : String) : pyStrip (pyStrip s) = pyStrip s := by
  unfold pyStrip
  have h1 : List.dropWhile Char.isWhitespace
      (dropTrail Char.isWhitespace (List.dropWhile Char.isWhitespace s.data)) =
      dropTrail Char.isWhitespace (List.dropWhile Char.isWhitespace s.data) :=
    dropWhile_dropTrail _ _ (fun c cs h => dropWhile_head_false _ s.data c cs h)
  simp only [h1, dropTrail_idem]

/-- Every element produced by the image cleanup loop is stripped, non-empty
and appears once. -/
theorem imageLoop_props :
    ∀ (l acc : List String), (∀ x ∈ acc, pyStrip x = x ∧ x ≠ "") → acc.Nodup →
      (∀ x ∈ imageLoop acc l, pyStrip x = x ∧ x ≠ "") ∧ (imageLoop acc l).Nodup := by
  intro l
  induction l with
  | nil => intro acc h1 h2; exact ⟨h1, h2⟩
  | cons i rest ih =>
      intro acc h1 h2
      rw [imageLoop]
      by_cases hcond : (pyStrip i ≠ "" && !(acc.contains (pyStrip i))) = true
      · rw [if_pos hcond]
        simp only [Bool.and_eq_true, Bool.not_eq_true', ne_eq, decide_not,
          Bool.not_eq_true, decide_eq_false_iff_not] at hcond
        have hnotmem : pyStrip i ∉ acc := by
          have := hcond.2
          simpa using this
        refine ih (acc ++ [pyStrip i]) ?_ ?_
        · intro x hx
          rcases List.mem_append.mp hx with hx | hx
          · exact h1 x hx
          · rcases List.mem_singleton.mp hx with rfl
            exact ⟨pyStrip_idem i, hcond.1⟩
        · refine List.Nodup.append h2 (List.nodup_singleton _) ?_
          intro y hy hy2
          rw [List.mem_singleton] at hy2
          subst hy2
          exact hnotmem hy
      · rw [if_neg hcond]
        exact ih acc h1 h2

/-- The image cleanup loop appends already-clean fresh elements verbatim. -/
theorem imageLoop_fixed :
    ∀ (l acc : List String), (∀ x ∈ l, pyStrip x = x ∧ x ≠ "") → l.Nodup →
      (∀ x ∈ l, x ∉ acc) → imageLoop acc l = acc ++ l := by
  intro l
  induction l with
  | nil => intro acc _ _ _; simp [imageLoop]
  | cons x rest ih =>
      intro acc hclean hnodup hfresh
      obtain ⟨hsx, hnx⟩ := hclean x (List.mem_cons_self _ _)
      rw [imageLoop, hsx]
      have hxmem : x ∉ acc := hfresh x (List.mem_cons_self _ _)
      rw [if_pos (by simp [hnx, hxmem])]
      have hrest := ih (acc ++ [x])
        (fun y hy => hclean y (List.mem_cons_of_mem _ hy))
        (List.Nodup.of_cons hnodup)
        (by
          intro y hy
          rw [List.mem_append, List.mem_singleton]
          rintro (h | rfl)
          · exact hfresh y (List.mem_cons_of_mem _ hy) h
          · exact (List.nodup_cons.mp hnodup).1 hy)
      rw [hrest, List.append_assoc]
      rfl

/-- Running the image cleanup loop on its own output changes nothing. -/
theorem imageLoop_idem (l : List String) :
    imageLoop [] (imageLoop [] l) = imageLoop [] l := by
  obtain ⟨h1, h2⟩ := imageLoop_props l [] (by intro x hx; simp at hx) List.nodup_nil
  have := imageLoop_fixed (imageLoop [] l) [] h1 h2 (by intro x _ hx; simp at hx)
  simpa using this

/-- The added label is a member of the guarded-append result. -/
theorem addIfAbsent_mem_self (l : List String) (v : String) : v ∈ addIfAbsent l v := by
  unfold addIfAbsent
  by_cases h : l.contains v = true
  · rw [if_pos h]
    simpa using h
  · rw [if_neg h]
    simp

/-- Guarded append preserves membership. -/
theorem addIfAbsent_mono (l : List String) (v w : String) (h : w ∈ l) :
    w ∈ addIfAbsent l v := by
  unfold addIfAbsent
  by_cases hc : l.contains v = true
  · rw [if_pos hc]; exact h
  · rw [if_neg hc]; exact List.mem_append_left _ h

/-- Appending an already-present label is the identity. -/
theorem addIfAbsent_of_mem (l : List String) (v : String) (h : v ∈ l) :
    addIfAbsent l v = l := by
  unfold addIfAbsent
  rw [if_pos (by simpa using h)]

/-- The CATEGORY_MAP fold preserves membership. -/
theorem guardedAdd_foldl_mono (g : String × String → Bool) :
    ∀ (L : List (String × String)) (acc : List String) (w : String),
      w ∈ acc → w ∈ L.foldl (guardedAdd g) acc := by
  intro L
  induction L with
  | nil => intro acc w h; exact h
  | cons kv rest ih =>
      intro acc w h
      rw [List.foldl_cons]
      apply ih
      unfold guardedAdd
      by_cases hg : g kv = true
      · rw [if_pos hg]; exact addIfAbsent_mono _ _ _ h
      · rw [if_neg hg]; exact h

/-- Every label whose guard fires is in the CATEGORY_MAP fold's result. -/
theorem guardedAdd_foldl_covers (g : String × String → Bool) :
    ∀ (L : List (String × String)) (acc : List String) (kv : String × String),
      kv ∈ L → g kv = true → kv.2 ∈ L.foldl (guardedAdd g) acc := by
  intro L
  induction L with
  | nil => intro acc kv h; simp at h
  | cons a rest ih =>
      intro acc kv hmem hg
      rw [List.foldl_cons]
      rcases List.mem_cons.mp hmem with rfl | hmem2
      · apply guardedAdd_foldl_mono
        unfold guardedAdd
        rw [if_pos hg]
        exact addIfAbsent_mem_self _ _
      · exact ih _ kv hmem2 hg

/-- The CATEGORY_MAP fold is the identity once every fired label is already
present. -/
theorem guardedAdd_foldl_id (g : String × String → Bool) :
    ∀ (L : List (String × String)) (acc : List String),
      (∀ kv ∈ L, g kv = true → kv.2 ∈ acc) → L.foldl (guardedAdd g) acc = acc := by
  intro L
  induction L with
  | nil => intro acc _; rfl
  | cons a rest ih =>
      intro acc h
      rw [List.foldl_cons]
      have hstep : guardedAdd g acc a = acc := by
        unfold guardedAdd
        by_cases hg : g a = true
        · rw [if_pos hg]
          exact addIfAbsent_of_mem _ _ (h a (List.mem_cons_self _ _) hg)
        · rw [if_neg hg]
      rw [hstep]
      exact ih acc (fun kv hkv hg => h kv (List.mem_cons_of_mem _ hkv) hg)

/-- A sports entity's lowercased sport_type is in its computed taxonomy. -/
theorem sport_mem_taxOf (z : Entity) (st : String) (hty : z.type = "sports")
    (hst : z.sport_type = some st) (hne : st ≠ "") : lowerStr st ∈ taxOf z := by
  simp only [taxOf, hty, hst, if_pos, reduceIte]
  rw [if_pos hne]
  exact addIfAbsent_mem_self _ _

/-- Labels of the CATEGORY_MAP fold stage are in the computed taxonomy. -/
theorem foldStage_subset_taxOf (z : Entity) (w : String)
    (hw : w ∈ CATEGORY_MAP.foldl
      (guardedAdd (fun kv => containsSub kv.1.data
        (lowerStr (match z.title with | some t => t | none => "")).data))
      (match z.taxonomy with | some l => l | none => [])) :
    w ∈ taxOf z := by
  simp only [taxOf]
  by_cases hty : z.type = "sports"
  · rw [if_pos hty]
    cases z.sport_type with
    | none => exact hw
    | some st =>
        simp only []
        by_cases hne : st ≠ ""
        · rw [if_pos hne]
          exact addIfAbsent_mono _ _ _ hw
        · rw [if_neg hne]
          exact hw
  · rw [if_neg hty]
    exact hw

/-- Re-running the CATEGORY_MAP fold on a computed taxonomy adds nothing. -/
theorem foldStage_taxOf_fixed (z : Entity) :
    CATEGORY_MAP.foldl
      (guardedAdd (fun kv => containsSub kv.1.data
        (lowerStr (match z.title with | some t => t | none => "")).data))
      (taxOf z) = taxOf z := by
  apply guardedAdd_foldl_id
  intro kv hkv hg
  exact foldStage_subset_taxOf z kv.2 (guardedAdd_foldl_covers _ _ _ kv hkv hg)

/-- map_taxonomy is idempotent. -/
theorem map_taxonomy_idem (z : Entity) :
    map_taxonomy (map_taxonomy z) = map_taxonomy z := by
  have hT : taxOf (map_taxonomy z) = taxOf z := by
    show (if z.type = "sports" then
            match z.sport_type with
            | some st =>
                if st ≠ "" then
                  addIfAbsent
                    (CATEGORY_MAP.foldl
                      (guardedAdd (fun kv => containsSub kv.1.data
                        (lowerStr (match z.title with | some t => t | none => "")).data))
                      (taxOf z)) (lowerStr st)
                else
                  CATEGORY_MAP.foldl
                    (guardedAdd (fun kv => containsSub kv.1.data
                      (lowerStr (match z.title with | some t => t | none => "")).data))
                    (taxOf z)
            | none =>
                CATEGORY_MAP.foldl
                  (guardedAdd (fun kv => containsSub kv.1.data
                    (lowerStr (match z.title with | some t => t | none => "")).data))
                  (taxOf z)
          else
            CATEGORY_MAP.foldl
              (guardedAdd (fun kv => containsSub kv.1.data
                (lowerStr (match z.title with | some t => t | none => "")).data))
              (taxOf z)) = taxOf z
    by_cases hty : z.type = "sports"
    · rw [if_pos hty]
      cases hst : z.sport_type with
      | none => exact foldStage_taxOf_fixed z
      | some st =>
          simp only []
          by_cases hne : st ≠ ""
          · rw [if_pos hne, foldStage_taxOf_fixed z]
            exact addIfAbsent_of_mem _ _ (sport_mem_taxOf z st hty hst hne)
          · rw [if_neg hne]
            exact foldStage_taxOf_fixed z
    · rw [if_neg hty]
      exact foldStage_taxOf_fixed z
  show ({ map_taxonomy z with taxonomy := some (taxOf (map_taxonomy z)) } : Entity) =
    map_taxonomy z
  rw [hT]
  rfl

/-- priceOf depends only on price_text and price_value. -/
theorem priceOf_congr (e1 e2 : Entity) (h1 : e1.price_text = e2.price_text)
    (h2 : e1.price_value = e2.price_value) : priceOf e1 = priceOf e2 := by
  unfold priceOf
  rw [h1, h2]

/-- priceOf after a price_value rewrite, in closed form. -/
theorem priceOf_update (c : Entity) (v : Option Rat) :
    priceOf { c with price_value := v } =
      (match c.price_text with
       | none => v
       | some s => match priceSearch s.data with | none => v | some q => some q) := rfl

/-- Re-deriving the price after price_to_number changes nothing. -/
theorem priceOf_after (c : Entity) :
    priceOf { c with price_value := priceOf c } = priceOf c := by
  rw [priceOf_update]
  cases hpt : c.price_text with
  | none => rfl
  | some s =>
      simp only []
      cases hq : priceSearch s.data with
      | none => rfl
      | some q =>
          show some q = priceOf c
          unfold priceOf
          rw [hpt]
          simp only []
          rw [hq]

/-- urlOfN depends only on the url field. -/
theorem urlOfN_congr (e1 e2 : Entity) (h : e1.url = e2.url) : urlOfN e1 = urlOfN e2 := by
  unfold urlOfN
  rw [h]

/-- imagesOfN depends only on the images field. -/
theorem imagesOfN_congr (e1 e2 : Entity) (h : e1.images = e2.images) :
    imagesOfN e1 = imagesOfN e2 := by
  unfold imagesOfN
  rw [h]

/-- Re-stripping a stripped url changes nothing. -/
theorem urlOfN_after (c : Entity) :
    urlOfN { c with url := urlOfN c, images := imagesOfN c } = urlOfN c := by
  show (match urlOfN c with
        | some u => some (pyStrip u)
        | none => none) = urlOfN c
  cases hu : c.url with
  | none =>
      have h1 : urlOfN c = none := by unfold urlOfN; rw [hu]
      rw [h1]
  | some u =>
      have h1 : urlOfN c = some (pyStrip u) := by unfold urlOfN; rw [hu]
      rw [h1]
      simp only []
      rw [pyStrip_idem]

/-- Re-cleaning a cleaned images list changes nothing. -/
theorem imagesOfN_after (c : Entity) :
    imagesOfN { c with url := urlOfN c, images := imagesOfN c } = imagesOfN c := by
  show (match imagesOfN c with
        | some imgs => some (imageLoop [] imgs)
        | none => none) = imagesOfN c
  cases hi : c.images with
  | none =>
      have h1 : imagesOfN c = none := by unfold imagesOfN; rw [hi]
      rw [h1]
  | some imgs =>
      have h1 : imagesOfN c = some (imageLoop [] imgs) := by unfold imagesOfN; rw [hi]
      rw [h1]
      simp only []
      rw [imageLoop_idem]

/-- The post-datetime stages of the pipeline are idempotent. -/
theorem postDT_idem (ee pe : String → List String) (x : Entity) :
    postDT ee pe (postDT ee pe x) = postDT ee pe x := by
  have hC : normalise_contacts ee pe (postDT ee pe x) = postDT ee pe x := rfl
  have hPP : price_to_number (postDT ee pe x) = postDT ee pe x := by
    show ({ postDT ee pe x with price_value := priceOf (postDT ee pe x) } : Entity) =
      postDT ee pe x
    have h : priceOf (postDT ee pe x) = (postDT ee pe x).price_value := by
      calc priceOf (postDT ee pe x)
          = priceOf { normalise_contacts ee pe x with
              price_value := priceOf (normalise_contacts ee pe x) } :=
            priceOf_congr _ _ rfl rfl
        _ = priceOf (normalise_contacts ee pe x) := priceOf_after _
    rw [h]
  have hU : normalise_urls (postDT ee pe x) = postDT ee pe x := by
    show ({ postDT ee pe x with url := urlOfN (postDT ee pe x), images := imagesOfN (postDT ee pe x) } : Entity) = postDT ee pe x
    have h1 : urlOfN (postDT ee pe x) = (postDT ee pe x).url := by
      calc urlOfN (postDT ee pe x)
          = urlOfN { price_to_number (normalise_contacts ee pe x) with
              url := urlOfN (price_to_number (normalise_contacts ee pe x)),
              images := imagesOfN (price_to_number (normalise_contacts ee pe x)) } :=
            urlOfN_congr _ _ rfl
        _ = urlOfN (price_to_number (normalise_contacts ee pe x)) := urlOfN_after _
    have h2 : imagesOfN (postDT ee pe x) = (postDT ee pe x).images := by
      calc imagesOfN (postDT ee pe x)
          = imagesOfN { price_to_number (normalise_contacts ee pe x) with
              url := urlOfN (price_to_number (normalise_contacts ee pe x)),
              images := imagesOfN (price_to_number (normalise_contacts ee pe x)) } :=
            imagesOfN_congr _ _ rfl
        _ = imagesOfN (price_to_number (normalise_contacts ee pe x)) := imagesOfN_after _
    rw [h1, h2]
  show map_taxonomy (normalise_urls (price_to_number
    (normalise_contacts ee pe (postDT ee pe x)))) = postDT ee pe x
  rw [hC, hPP, hU]
  exact map_taxonomy_idem (normalise_urls (price_to_number (normalise_contacts ee pe x)))

/-- charDigit inverts digitChar on single digits. -/
theorem charDigit_digitChar : ∀ x < 10, charDigit (Nat.digitChar x) = some x := by
  decide

/-- The synthesised UTC offset name is never empty. -/
theorem synthName_ne_empty (m : Int) : synthName m ≠ "" := by
  intro h
  have h2 := congrArg String.data h
  simp [synthName] at h2

/-- The synthesised name never collides with the bare key UTC. -/
theorem synthName_ne_utc (m : Int) : synthName m ≠ "UTC" := by
  intro h
  have h2 := congrArg (fun s => s.data.length) h
  simp [synthName, twoDigits] at h2

/-- The normalised tzinfo attached by isoparse has the parsed offset. -/
theorem utcoff_of_norm (o l : Int) :
    utcoff (if o = 0 then TzInfo.utc else TzInfo.fixed o) l = o := by
  by_cases h : o = 0
  · rw [if_pos h, h]; rfl
  · rw [if_neg h]; rfl

/-- _resolve_timezone parses the synthesised UTC offset name back to the
same fixed offset (offsets below 24 hours, name not shadowed in the zone
database). -/
theorem parse_synth (zdb : Zdb) (m : Int) (hm : m.natAbs < 1440)
    (hz : zdb (synthName m) = none) :
    resolveName zdb (synthName m) = .ok (some (.fixed m)) := by
  unfold resolveName
  rw [if_neg (synthName_ne_empty m), hz]
  have hdig1 : charDigit (Nat.digitChar (m.natAbs / 60 / 10)) = some (m.natAbs / 60 / 10) :=
    charDigit_digitChar _ (by omega)
  have hdig2 : charDigit (Nat.digitChar (m.natAbs / 60 % 10)) = some (m.natAbs / 60 % 10) :=
    charDigit_digitChar _ (by omega)
  have hdig3 : charDigit (Nat.digitChar (m.natAbs % 60 / 10)) = some (m.natAbs % 60 / 10) :=
    charDigit_digitChar _ (by omega)
  have hdig4 : charDigit (Nat.digitChar (m.natAbs % 60 % 10)) = some (m.natAbs % 60 % 10) :=
    charDigit_digitChar _ (by omega)
  show (let sign : Int := if (if 0 ≤ m then '+' else '-') = '+' then 1 else -1
        match charDigit (Nat.digitChar (m.natAbs / 60 / 10)),
              charDigit (Nat.digitChar (m.natAbs / 60 % 10)) with
        | some h1, some h2 =>
            let hours := h1 * 10 + h2
            match charDigit (Nat.digitChar (m.natAbs % 60 / 10)),
                  charDigit (Nat.digitChar (m.natAbs % 60 % 10)) with
            | some n1, some n2 =>
                let minutes := n1 * 10 + n2
                if hours * 60 + minutes < 1440 then
                  Except.ok (some (TzInfo.fixed (sign * (hours * 60 + minutes))))
                else Except.error ()
            | _, _ => Except.error ()
        | _, _ => Except.error ()) = Except.ok (some (TzInfo.fixed m))
  rw [hdig1, hdig2, hdig3, hdig4]
  simp only []
  have hhours : m.natAbs / 60 / 10 * 10 + m.natAbs / 60 % 10 = m.natAbs / 60 := by omega
  have hmins : m.natAbs % 60 / 10 * 10 + m.natAbs % 60 % 10 = m.natAbs % 60 := by omega
  rw [hhours, hmins]
  rw [if_pos (by omega : m.natAbs / 60 * 60 + m.natAbs % 60 < 1440)]
  by_cases hsign : 0 ≤ m
  · rw [if_pos hsign]
    rw [if_pos rfl]
    congr 3
    omega
  · rw [if_neg hsign]
    rw [if_neg (by decide : ¬ ('-' = '+'))]
    congr 3
    omega

/-- Binding an error short-circuits. -/
theorem err_bind {α β : Type} (u : Unit) (f : α → Except Unit β) :
    ((Except.error u : Except Unit α) >>= f) = Except.error u := rfl

/-- Resolving the empty name yields no tzinfo. -/
theorem resolveName_empty (zdb : Zdb) : resolveName zdb "" = .ok none := by
  unfold resolveName
  rw [if_pos rfl]

/-- A name that resolves to a tzinfo is nonempty. -/
theorem resolve_some_ne_empty (zdb : Zdb) (n : String) (r : TzInfo)
    (h : resolveName zdb n = .ok (some r)) : n ≠ "" := by
  intro he
  subst he
  rw [resolveName_empty] at h
  injection h with h1
  exact Option.noConfusion h1

/-- A hint that resolves to a tzinfo is truthy. -/
theorem resolve_some_truthy (zdb : Zdb) (hint : Option String) (r : TzInfo)
    (h : resolveTz zdb hint = .ok (some r)) : hintTruthy hint = true := by
  cases hint with
  | none => simp [resolveTz] at h
  | some n =>
      have hne := resolve_some_ne_empty zdb n r h
      simp [hintTruthy, hne]

/-- A falsy hint resolves to nothing. -/
theorem resolve_falsy (zdb : Zdb) (hint : Option String)
    (h : hintTruthy hint = false) : resolveTz zdb hint = .ok none := by
  cases hint with
  | none => rfl
  | some n =>
      have hn : n = "" := by
        by_contra hne
        simp [hintTruthy, hne] at h
      subst hn
      exact resolveName_empty zdb

/-- Conversion roundtrip for a regular tzinfo: mapping a local time to UTC
with its offset and back through fromutc is the identity. -/
theorem tz_roundtrip (r : TzInfo) (hreg : TzRegular r) (l : Int) :
    fromutcAt r (l - utcoff r l) = l := by
  cases r with
  | utc => show l - 0 = l; omega
  | fixed m => show l - m + m = l; omega
  | zone z =>
      have h2 : ZoneRegular z := hreg
      exact h2.2 l

/-- Every tzinfo _resolve_timezone returns is regular when every zone of the
database is: a database hit is a regular zone, and the UTC±HH:MM fallback is
a fixed offset. -/
theorem resolveName_shape (zdb : Zdb) (n : String) (r : TzInfo)
    (hgz : ∀ m z, zdb m = some z → ZoneRegular z)
    (h : resolveName zdb n = .ok (some r)) : TzRegular r := by
  unfold resolveName at h
  repeat' (first | (split at h) | (simp only [] at h))
  all_goals first
    | (injection h with h1; injection h1 with h2; subst h2;
       first | exact trivial | exact hgz _ _ (by assumption))
    | (simp at h)

/-- A tzinfo obtained from _resolve_timezone is regular when every database
zone is. -/
theorem resolveTz_regular (zdb : Zdb) (hgz : ∀ m z, zdb m = some z → ZoneRegular z)
    (hint : Option String) (r : TzInfo)
    (h : resolveTz zdb hint = .ok (some r)) : TzRegular r := by
  cases hint with
  | none => simp [resolveTz] at h
  | some nm => exact resolveName_shape zdb nm r hgz h

/-- Re-converting the render of a kept (unconverted) aware value under a
hint that resolves to nothing returns the value unchanged. -/
theorem convert_render_kept (zdb : Zdb) (hint : Option String)
    (hs : resolveTz zdb hint = .ok none) (n o : Int) :
    convertDT zdb hint (renderD ⟨n, if o = 0 then TzInfo.utc else TzInfo.fixed o⟩) =
      .ok ⟨n, if o = 0 then TzInfo.utc else TzInfo.fixed o⟩ := by
  have hrd : renderD (⟨n, if o = 0 then TzInfo.utc else TzInfo.fixed o⟩ : ADT) =
      DStr.iso ⟨n, some o⟩ := by
    show DStr.iso ⟨n, some (utcoff (if o = 0 then TzInfo.utc else TzInfo.fixed o) n)⟩ =
      DStr.iso ⟨n, some o⟩
    rw [utcoff_of_norm]
  rw [hrd]
  show (let dt : ADT := ⟨n, if o = 0 then TzInfo.utc else TzInfo.fixed o⟩
        if hintTruthy hint then do
          let r0 ← resolveTz zdb hint
          match r0 with
          | some r => Except.ok (astimezone dt r)
          | none => Except.ok dt
        else Except.ok dt) =
      Except.ok ⟨n, if o = 0 then TzInfo.utc else TzInfo.fixed o⟩
  cases ht : hintTruthy hint with
  | false => rfl
  | true => rw [hs]; rfl

/-- Re-converting the render of a value carrying a resolved regular tzinfo
under the same hint returns the value unchanged. -/
theorem convert_render_attached (zdb : Zdb) (hint : Option String) (r : TzInfo)
    (hs : resolveTz zdb hint = .ok (some r)) (hreg : TzRegular r) (w : Int) :
    convertDT zdb hint (renderD ⟨w, r⟩) = .ok ⟨w, r⟩ := by
  have ht : hintTruthy hint = true := resolve_some_truthy zdb hint r hs
  show (let dt : ADT := ⟨w, if utcoff r w = 0 then TzInfo.utc
          else TzInfo.fixed (utcoff r w)⟩
        if hintTruthy hint then do
          let r0 ← resolveTz zdb hint
          match r0 with
          | some r1 => Except.ok (astimezone dt r1)
          | none => Except.ok dt
        else Except.ok dt) =
      Except.ok ⟨w, r⟩
  rw [ht, hs]
  show Except.ok (⟨fromutcAt r (w - utcoff (if utcoff r w = 0 then TzInfo.utc
      else TzInfo.fixed (utcoff r w)) w), r⟩ : ADT) = Except.ok ⟨w, r⟩
  rw [utcoff_of_norm (utcoff r w) w, tz_roundtrip r hreg w]

/-- A successfully converted value converts to itself when re-parsed under
the same hint: the second parse sees exactly the offset the first render
wrote, and the conversion roundtrip is the identity on regular zones. -/
theorem convertDT_stable (zdb : Zdb) (hgz : ∀ m z, zdb m = some z → ZoneRegular z)
    (hint : Option String) (v : DStr) (d : ADT)
    (h : convertDT zdb hint v = .ok d) :
    convertDT zdb hint (renderD d) = .ok d := by
  cases v with
  | malformed s => simp [convertDT] at h
  | iso dv =>
      obtain ⟨n, tzo⟩ := dv
      cases tzo with
      | none =>
          have h' : (resolveTz zdb hint >>= fun r0 =>
              match r0 with
              | some r => Except.ok (⟨n, r⟩ : ADT)
              | none => Except.ok (⟨n, TzInfo.utc⟩ : ADT)) = Except.ok d := h
          cases hr : resolveTz zdb hint with
          | error u => rw [hr, err_bind] at h'; exact Except.noConfusion h'
          | ok s =>
              rw [hr, ok_bind] at h'
              cases s with
              | none =>
                  injection h' with h1
                  subst h1
                  have hk := convert_render_kept zdb hint hr n 0
                  rw [if_pos rfl] at hk
                  exact hk
              | some r =>
                  injection h' with h1
                  subst h1
                  exact convert_render_attached zdb hint r hr
                    (resolveTz_regular zdb hgz hint r hr) n
      | some o =>
          have h' : (let dt : ADT := ⟨n, if o = 0 then TzInfo.utc else TzInfo.fixed o⟩
              if hintTruthy hint then do
                let r0 ← resolveTz zdb hint
                match r0 with
                | some r => Except.ok (astimezone dt r)
                | none => Except.ok dt
              else Except.ok dt) = Except.ok d := h
          cases ht : hintTruthy hint with
          | false =>
              rw [ht] at h'
              have h'' : Except.ok (⟨n, if o = 0 then TzInfo.utc
                  else TzInfo.fixed o⟩ : ADT) = Except.ok d := h'
              injection h'' with h1
              subst h1
              exact convert_render_kept zdb hint (resolve_falsy zdb hint ht) n o
          | true =>
              rw [ht] at h'
              have h'' : (resolveTz zdb hint >>= fun r0 =>
                  match r0 with
                  | some r => Except.ok (astimezone
                      ⟨n, if o = 0 then TzInfo.utc else TzInfo.fixed o⟩ r)
                  | none => Except.ok (⟨n, if o = 0 then TzInfo.utc
                      else TzInfo.fixed o⟩ : ADT)) = Except.ok d := h'
              cases hr : resolveTz zdb hint with
              | error u => rw [hr, err_bind] at h''; exact Except.noConfusion h''
              | ok s =>
                  rw [hr, ok_bind] at h''
                  cases s with
                  | none =>
                      injection h'' with h1
                      subst h1
                      exact convert_render_kept zdb hint hr n o
                  | some r =>
                      injection h'' with h1
                      subst h1
                      have ha : astimezone
                          (⟨n, if o = 0 then TzInfo.utc else TzInfo.fixed o⟩ : ADT) r =
                          ⟨fromutcAt r (n - o), r⟩ := by
                        show (⟨fromutcAt r (n - utcoff (if o = 0 then TzInfo.utc
                            else TzInfo.fixed o) n), r⟩ : ADT) = _
                        rw [utcoff_of_norm]
                      rw [ha]
                      exact convert_render_attached zdb hint r hr
                        (resolveTz_regular zdb hgz hint r hr) (fromutcAt r (n - o))

/-- The end stage of normalize_datetimes is stable under re-application with
the same hint. -/
theorem dtEnd_stable (zdb : Zdb) (hgz : ∀ m z, zdb m = some z → ZoneRegular z)
    (tz1 : Option String) (en en1 : Option DStr)
    (h : dtEnd zdb tz1 en = .ok en1) : dtEnd zdb tz1 en1 = .ok en1 := by
  cases en with
  | none =>
      have h' : Except.ok (none : Option DStr) = Except.ok en1 := h
      injection h' with h1
      subst h1
      rfl
  | some v =>
      have h' : (convertDT zdb tz1 v >>= fun d =>
          Except.ok (some (renderD d))) = Except.ok en1 := h
      cases hc : convertDT zdb tz1 v with
      | error u => rw [hc, err_bind] at h'; exact Except.noConfusion h'
      | ok d =>
          rw [hc, ok_bind] at h'
          injection h' with h1
          subst h1
          show (convertDT zdb tz1 (renderD d) >>= fun d2 =>
              Except.ok (some (renderD d2))) = Except.ok (some (renderD d))
          rw [convertDT_stable zdb hgz tz1 v d hc, ok_bind]

/-- The slot-list normalisation is stable under re-application with the same
hint. -/
theorem normSlots_stable (zdb : Zdb) (hgz : ∀ m z, zdb m = some z → ZoneRegular z)
    (tz1 : Option String) (l ns : List TimeSlot)
    (h : normSlots zdb tz1 l = .ok ns) : normSlots zdb tz1 ns = .ok ns := by
  induction l generalizing ns with
  | nil =>
      have h' : Except.ok ([] : List TimeSlot) = Except.ok ns := h
      injection h' with h1
      subst h1
      rfl
  | cons s rest ih =>
      obtain ⟨sv0, ev0⟩ := s
      cases sv0 with
      | none =>
          cases ev0 with
          | none => exact ih ns h
          | some ev => exact ih ns h
      | some sv =>
          cases ev0 with
          | none => exact ih ns h
          | some ev =>
              have h' : (convertDT zdb tz1 sv >>= fun sd =>
                  convertDT zdb tz1 ev >>= fun ed =>
                  normSlots zdb tz1 rest >>= fun tail =>
                  Except.ok (⟨some (renderD sd), some (renderD ed)⟩ :: tail)) =
                  Except.ok ns := h
              cases hc1 : convertDT zdb tz1 sv with
              | error u => rw [hc1, err_bind] at h'; exact Except.noConfusion h'
              | ok sd =>
                  rw [hc1, ok_bind] at h'
                  cases hc2 : convertDT zdb tz1 ev with
                  | error u => rw [hc2, err_bind] at h'; exact Except.noConfusion h'
                  | ok ed =>
                      rw [hc2, ok_bind] at h'
                      cases hct : normSlots zdb tz1 rest with
                      | error u => rw [hct, err_bind] at h'; exact Except.noConfusion h'
                      | ok tail =>
                          rw [hct, ok_bind] at h'
                          injection h' with h1
                          subst h1
                          show (convertDT zdb tz1 (renderD sd) >>= fun sd2 =>
                              convertDT zdb tz1 (renderD ed) >>= fun ed2 =>
                              normSlots zdb tz1 tail >>= fun tail2 =>
                              Except.ok (⟨some (renderD sd2), some (renderD ed2)⟩ :: tail2)) =
                              Except.ok (⟨some (renderD sd), some (renderD ed)⟩ :: tail)
                          rw [convertDT_stable zdb hgz tz1 sv sd hc1, ok_bind,
                              convertDT_stable zdb hgz tz1 ev ed hc2, ok_bind,
                              ih tail hct, ok_bind]

/-- The time_slots stage of normalize_datetimes is stable under
re-application with the same hint. -/
theorem dtSlots_stable (zdb : Zdb) (hgz : ∀ m z, zdb m = some z → ZoneRegular z)
    (tz1 : Option String) (sl sl1 : Option (List TimeSlot))
    (h : dtSlots zdb tz1 sl = .ok sl1) : dtSlots zdb tz1 sl1 = .ok sl1 := by
  cases sl with
  | none =>
      have h' : Except.ok (none : Option (List TimeSlot)) = Except.ok sl1 := h
      injection h' with h1
      subst h1
      rfl
  | some slots =>
      have h' : (normSlots zdb tz1 slots >>= fun ns =>
          Except.ok (some ns)) = Except.ok sl1 := h
      cases hn : normSlots zdb tz1 slots with
      | error u => rw [hn, err_bind] at h'; exact Except.noConfusion h'
      | ok ns =>
          rw [hn, ok_bind] at h'
          injection h' with h1
          subst h1
          show (normSlots zdb tz1 ns >>= fun ns2 =>
              Except.ok (some ns2)) = Except.ok (some ns)
          rw [normSlots_stable zdb hgz tz1 slots ns hn, ok_bind]

/-- With no hint, a converted value carries either tz.UTC (attached to a
naive parse or a zero offset) or the nonzero fixed offset it was parsed
with. -/
theorem convertDT_none_shape (zdb : Zdb) (v : DStr) (d : ADT)
    (h : convertDT zdb none v = .ok d) :
    d.tz = TzInfo.utc ∨
      ∃ o, ¬ o = 0 ∧ d.tz = TzInfo.fixed o ∧ v = .iso ⟨d.wall, some o⟩ := by
  cases v with
  | malformed s => simp [convertDT] at h
  | iso dv =>
      obtain ⟨n, tzo⟩ := dv
      cases tzo with
      | none =>
          have h' : Except.ok (⟨n, TzInfo.utc⟩ : ADT) = Except.ok d := h
          injection h' with h1
          subst h1
          exact Or.inl rfl
      | some o =>
          have h' : Except.ok (⟨n, if o = 0 then TzInfo.utc
              else TzInfo.fixed o⟩ : ADT) = Except.ok d := h
          injection h' with h1
          subst h1
          by_cases ho : o = 0
          · subst ho
            left
            show (if (0 : Int) = 0 then TzInfo.utc else TzInfo.fixed 0) = TzInfo.utc
            rw [if_pos rfl]
          · right
            refine ⟨o, ho, ?_, rfl⟩
            show (if o = 0 then TzInfo.utc else TzInfo.fixed o) = TzInfo.fixed o
            rw [if_neg ho]

/-- When the database lacks a UTC entry, the bare name UTC resolves to
nothing (it does not fit the UTC±HH:MM fallback). -/
theorem resolveName_utc_none (zdb : Zdb) (hz : zdb "UTC" = none) :
    resolveName zdb "UTC" = .ok none := by
  unfold resolveName
  rw [if_neg (by decide : ¬ ("UTC" = "")), hz]
  rfl

/-- A database UTC entry resolves to its zone. -/
theorem resolveName_utc_zone (zdb : Zdb) (z : Zone) (hz : zdb "UTC" = some z) :
    resolveName zdb "UTC" = .ok (some (.zone z)) := by
  unfold resolveName
  rw [if_neg (by decide : ¬ ("UTC" = "")), hz]

/-- The start-and-backfill stage of normalize_datetimes is stable: applied
to its own output (rendered start, possibly backfilled hint) it returns it
unchanged, given a good zone database and a well-formed start offset. -/
theorem dtStart_stable (zdb : Zdb)
    (hgz : ∀ m z, zdb m = some z → ZoneRegular z)
    (hutc : ∀ z, zdb "UTC" = some z → ∀ l, z.utcoffAtLocal l = 0)
    (hsyn : ∀ m : Int, zdb (synthName m) = none)
    (tz0 : Option String) (st st1 : Option DStr) (tz1 : Option String)
    (hw : WfOff st)
    (h : dtStart zdb tz0 st = .ok (st1, tz1)) :
    dtStart zdb tz1 st1 = .ok (st1, tz1) := by
  cases st with
  | none =>
      have h' : Except.ok ((none : Option DStr), tz0) = Except.ok (st1, tz1) := h
      injection h' with h1
      injection h1 with h2 h3
      subst h2
      subst h3
      rfl
  | some v =>
      have h' : (convertDT zdb tz0 v >>= fun d =>
          if tz0 = none then Except.ok (some (renderD d), some (tznameOf d))
          else Except.ok (some (renderD d), tz0)) = Except.ok (st1, tz1) := h
      cases hc : convertDT zdb tz0 v with
      | error u => rw [hc, err_bind] at h'; exact Except.noConfusion h'
      | ok d =>
          rw [hc, ok_bind] at h'
          cases tz0 with
          | some nm =>
              rw [if_neg (fun hx => Option.noConfusion hx)] at h'
              injection h' with h1
              injection h1 with h2 h3
              subst h2
              subst h3
              show (convertDT zdb (some nm) (renderD d) >>= fun d2 =>
                  if (some nm : Option String) = none then
                    Except.ok (some (renderD d2), some (tznameOf d2))
                  else Except.ok (some (renderD d2), some nm)) =
                  Except.ok (some (renderD d), some nm)
              rw [convertDT_stable zdb hgz (some nm) v d hc, ok_bind,
                  if_neg (fun hx => Option.noConfusion hx)]
          | none =>
              rw [if_pos rfl] at h'
              injection h' with h1
              injection h1 with h2 h3
              subst h2
              subst h3
              rcases convertDT_none_shape zdb v d hc with htz | ⟨o, ho, htz, hv⟩
              · obtain ⟨w, dtz⟩ := d
                have htz' : dtz = TzInfo.utc := htz
                subst htz'
                cases hz : zdb "UTC" with
                | none =>
                    have hs : resolveTz zdb (some "UTC") = .ok none :=
                      resolveName_utc_none zdb hz
                    have hcv := convert_render_kept zdb (some "UTC") hs w 0
                    rw [if_pos rfl] at hcv
                    show (convertDT zdb (some "UTC")
                        (renderD (⟨w, TzInfo.utc⟩ : ADT)) >>= fun d2 =>
                        if (some "UTC" : Option String) = none then
                          Except.ok (some (renderD d2), some (tznameOf d2))
                        else Except.ok (some (renderD d2), some "UTC")) =
                        Except.ok (some (renderD (⟨w, TzInfo.utc⟩ : ADT)), some "UTC")
                    rw [hcv, ok_bind, if_neg (fun hx => Option.noConfusion hx)]
                | some z =>
                    have hs : resolveTz zdb (some "UTC") = .ok (some (.zone z)) :=
                      resolveName_utc_zone zdb z hz
                    have hreg : TzRegular (.zone z) := hgz "UTC" z hz
                    have hcv := convert_render_attached zdb (some "UTC") (.zone z) hs hreg w
                    have hrend : renderD (⟨w, TzInfo.zone z⟩ : ADT) =
                        renderD (⟨w, TzInfo.utc⟩ : ADT) := by
                      show DStr.iso ⟨w, some (z.utcoffAtLocal w)⟩ = DStr.iso ⟨w, some 0⟩
                      rw [hutc z hz w]
                    rw [hrend] at hcv
                    show (convertDT zdb (some "UTC")
                        (renderD (⟨w, TzInfo.utc⟩ : ADT)) >>= fun d2 =>
                        if (some "UTC" : Option String) = none then
                          Except.ok (some (renderD d2), some (tznameOf d2))
                        else Except.ok (some (renderD d2), some "UTC")) =
                        Except.ok (some (renderD (⟨w, TzInfo.utc⟩ : ADT)), some "UTC")
                    rw [hcv, ok_bind, if_neg (fun hx => Option.noConfusion hx), hrend]
              · obtain ⟨w, dtz⟩ := d
                have htz' : dtz = TzInfo.fixed o := htz
                subst htz'
                have hv' : v = DStr.iso ⟨w, some o⟩ := hv
                subst hv'
                have ho1440 : o.natAbs < 1440 := hw
                have hs : resolveTz zdb (some (synthName o)) = .ok (some (.fixed o)) :=
                  parse_synth zdb o ho1440 (hsyn o)
                have hcv := convert_render_attached zdb (some (synthName o))
                  (.fixed o) hs True.intro w
                show (convertDT zdb (some (synthName o))
                    (renderD (⟨w, TzInfo.fixed o⟩ : ADT)) >>= fun d2 =>
                    if (some (synthName o) : Option String) = none then
                      Except.ok (some (renderD d2), some (tznameOf d2))
                    else Except.ok (some (renderD d2), some (synthName o))) =
                    Except.ok (some (renderD (⟨w, TzInfo.fixed o⟩ : ADT)),
                      some (synthName o))
                rw [hcv, ok_bind, if_neg (fun hx => Option.noConfusion hx)]

/-- The whole datetime core of normalize_datetimes is stable on its own
output under a good zone database and a well-formed start offset. -/
theorem dtCore_stable (zdb : Zdb)
    (hgz : ∀ m z, zdb m = some z → ZoneRegular z)
    (hutc : ∀ z, zdb "UTC" = some z → ∀ l, z.utcoffAtLocal l = 0)
    (hsyn : ∀ m : Int, zdb (synthName m) = none)
    (tz0 : Option String) (st en : Option DStr) (sl : Option (List TimeSlot))
    (st1 : Option DStr) (tz1 : Option String) (en1 : Option DStr)
    (sl1 : Option (List TimeSlot)) (hw : WfOff st)
    (h : dtCore zdb tz0 st en sl = .ok (st1, tz1, en1, sl1)) :
    dtCore zdb tz1 st1 en1 sl1 = .ok (st1, tz1, en1, sl1) := by
  have h' : (dtStart zdb tz0 st >>= fun p1 =>
      dtEnd zdb p1.2 en >>= fun en1' =>
      dtSlots zdb p1.2 sl >>= fun sl1' =>
      Except.ok (p1.1, p1.2, en1', sl1')) = Except.ok (st1, tz1, en1, sl1) := h
  cases hp : dtStart zdb tz0 st with
  | error u => rw [hp, err_bind] at h'; exact Except.noConfusion h'
  | ok p1 =>
      obtain ⟨sta, tza⟩ := p1
      rw [hp, ok_bind] at h'
      cases he : dtEnd zdb tza en with
      | error u => rw [he, err_bind] at h'; exact Except.noConfusion h'
      | ok ena =>
          rw [he, ok_bind] at h'
          cases hl : dtSlots zdb tza sl with
          | error u => rw [hl, err_bind] at h'; exact Except.noConfusion h'
          | ok sla =>
              rw [hl, ok_bind] at h'
              injection h' with h1
              injection h1 with h2 h3
              injection h3 with h4 h5
              injection h5 with h6 h7
              subst h2
              subst h4
              subst h6
              subst h7
              have hps := dtStart_stable zdb hgz hutc hsyn tz0 st sta tza hw hp
              have hes := dtEnd_stable zdb hgz tza en ena he
              have hls := dtSlots_stable zdb hgz tza sl sla hl
              show (dtStart zdb tza sta >>= fun p1 =>
                  dtEnd zdb p1.2 ena >>= fun en1' =>
                  dtSlots zdb p1.2 sla >>= fun sl1' =>
                  Except.ok (p1.1, p1.2, en1', sl1')) =
                  Except.ok (sta, tza, ena, sla)
              rw [hps, ok_bind]
              show (dtEnd zdb tza ena >>= fun en1' =>
                  dtSlots zdb tza sla >>= fun sl1' =>
                  Except.ok (sta, tza, en1', sl1')) =
                  Except.ok (sta, tza, ena, sla)
              rw [hes, ok_bind]
              show (dtSlots zdb tza sla >>= fun sl1' =>
                  Except.ok (sta, tza, ena, sl1')) =
                  Except.ok (sta, tza, ena, sla)
              rw [hls, ok_bind]

/-- normalize_datetimes is the identity on an entity whose datetime core is
already a fixpoint. -/
theorem normalize_datetimes_fix (zdb : Zdb) (y : Entity)
    (hstab : dtCore zdb y.timezone y.start y.«end» y.time_slots =
      .ok (y.start, y.timezone, y.«end», y.time_slots)) :
    normalize_datetimes zdb y = .ok y := by
  show (dtCore zdb y.timezone y.start y.«end» y.time_slots >>= fun r =>
      Except.ok { y with
        start := r.1, timezone := r.2.1, «end» := r.2.2.1,
        time_slots := r.2.2.2 }) = Except.ok y
  rw [hstab, ok_bind]

/-- C6 (corrected): over a zone database whose zones are regular (conversion
to and from UTC are mutually inverse), whose UTC entry has zero offset, and
which does not shadow the synthesised UTC±HH:MM names, the normalisation
pass (normalize_datetimes, normalise_contacts, price_to_number,
normalise_urls, map_taxonomy in that order) is idempotent on entities whose
explicit start offset is under 24 hours: a second application of the pass to
the output of the first returns that output unchanged.  Without zone
regularity idempotence fails at DST gaps (see the counterexample). -/
theorem c6_normalise_pass_idempotent (zdb : Zdb) (ee pe : String → List String)
    (e e1 : Entity) (hg : GoodZdb zdb) (hw : WfOff e.start)
    (h : normalisePass zdb ee pe e = .ok e1) :
    normalisePass zdb ee pe e1 = .ok e1 := by
  obtain ⟨hgz, hutc, hsyn⟩ := hg
  have h' : (normalize_datetimes zdb e >>= fun nd =>
      Except.ok (map_taxonomy (normalise_urls (price_to_number
        (normalise_contacts ee pe nd))))) = Except.ok e1 := h
  cases hnd : normalize_datetimes zdb e with
  | error u => rw [hnd, err_bind] at h'; exact Except.noConfusion h'
  | ok nd =>
      rw [hnd, ok_bind] at h'
      injection h' with he1
      have hnd' : (dtCore zdb e.timezone e.start e.«end» e.time_slots >>= fun r =>
          Except.ok { e with
            start := r.1, timezone := r.2.1, «end» := r.2.2.1,
            time_slots := r.2.2.2 }) = Except.ok nd := hnd
      cases hdc : dtCore zdb e.timezone e.start e.«end» e.time_slots with
      | error u => rw [hdc, err_bind] at hnd'; exact Except.noConfusion hnd'
      | ok r =>
          obtain ⟨st1, tz1, en1, sl1⟩ := r
          rw [hdc, ok_bind] at hnd'
          injection hnd' with hnde
          subst hnde
          subst he1
          have hstab := dtCore_stable zdb hgz hutc hsyn e.timezone e.start e.«end»
            e.time_slots st1 tz1 en1 sl1 hw hdc
          have hA : normalize_datetimes zdb (postDT ee pe { e with
              start := st1, timezone := tz1, «end» := en1, time_slots := sl1 }) =
              .ok (postDT ee pe { e with
                start := st1, timezone := tz1, «end» := en1, time_slots := sl1 }) :=
            normalize_datetimes_fix zdb _ hstab
          show (normalize_datetimes zdb (postDT ee pe { e with
              start := st1, timezone := tz1, «end» := en1, time_slots := sl1 }) >>= fun nd2 =>
              Except.ok (map_taxonomy (normalise_urls (price_to_number
                (normalise_contacts ee pe nd2))))) =
              Except.ok (postDT ee pe { e with
                start := st1, timezone := tz1, «end» := en1, time_slots := sl1 })
          rw [hA, ok_bind]
          exact congrArg Except.ok (postDT_idem ee pe { e with
            start := st1, timezone := tz1, «end» := en1, time_slots := sl1 })

/-- The one-zone UTC database satisfies the idempotence assumptions. -/
theorem goodZdbUTC : GoodZdb zdbUTC := by
  refine ⟨?_, ?_, ?_⟩
  · intro n z hz
    unfold zdbUTC at hz
    split at hz
    · injection hz with h1
      subst h1
      constructor
      · intro t
        show t - 0 = t
        omega
      · intro l
        show l - 0 = l
        omega
    · exact Option.noConfusion hz
  · intro z hz l
    unfold zdbUTC at hz
    rw [if_pos rfl] at hz
    injection hz with h1
    subst h1
    rfl
  · intro m
    unfold zdbUTC
    rw [if_neg (synthName_ne_utc m)]

/-- Witness for the corrected idempotence claim: a concrete entity over the
UTC database reaches a fixpoint after one pass. -/
theorem c6_normalise_pass_idempotent_witness :
    normalisePass zdbUTC noExtract noExtract eC6n = .ok eC6n :=
  c6_normalise_pass_idempotent zdbUTC noExtract noExtract eC6 eC6n goodZdbUTC
    (by trivial) rfl

/-- C6 counterexample: over the gap-zone database the pass is not
idempotent.  The first pass keeps the nonexistent local start 150 with the
pre-gap offset 60 (the astimezone identical-tzinfo short circuit); the
second pass honours that rendered offset and moves the start to 210 at
offset 120, so the second application changes the start field. -/
theorem c6_gap_counterexample :
    normalisePass zdbGap noExtract noExtract eGap = .ok eGap1 ∧
    normalisePass zdbGap noExtract noExtract eGap1 = .ok eGap2 ∧
    eGap2.start ≠ eGap1.start :=
  ⟨rfl, rfl, by decide⟩
